import Mathlib

/-!
Verification of the Mumble protocol engine (`system/protocols/mumble/protocol.py`)
of the Ultros repository, as a shallow embedding in Lean 4.

Conventions of the embedding:
* Bytes are `Nat`s in `0..255`; byte buffers are `List Nat`.
* Python dicts keyed by integers are association lists `List (Nat × α)`
  accessed through `alGet` / `alSet` / `alErase`.
* A Python exception escaping a handler is modelled by a `Bool` "raised" flag
  together with the state as mutated up to the raise point (the caller in
  `Protocol.dataReceived` catches exceptions from `recvProtobuf` and keeps the
  partially-mutated state).
* Protobuf payload parsing (`ParseFromString`, external library code) is a
  parameter `parse : Nat → List Nat → Option α`; `none` models a raised
  `DecodeError`.
* `system/protocols/mumble/user.py` and `channel.py` are not part of the
  sources under verification; the member-set operations they provide are
  modelled from the spec where indicated.
-/

namespace Ultros

/-! ## Message registry (`Protocol.ID_MESSAGE` / `Protocol.MESSAGE_ID`) -/

/-- The 25 protobuf message classes of `Mumble_pb2` used by the registry. -/
inductive MsgKind
  | version | udpTunnel | authenticate | ping | reject | serverSync
  | channelRemove | channelState | userRemove | userState | banList
  | textMessage | permissionDenied | acl | queryUsers | cryptSetup
  | contextActionModify | contextAction | userList | voiceTarget
  | permissionQuery | codecVersion | userStats | requestBlob | serverConfig
deriving DecidableEq, Repr

/-- Embedding of `Protocol.ID_MESSAGE` (protocol.py lines 53-79): the fixed ordered table. -/
def ID_MESSAGE : List MsgKind :=
  [.version, .udpTunnel, .authenticate, .ping, .reject, .serverSync,
   .channelRemove, .channelState, .userRemove, .userState, .banList,
   .textMessage, .permissionDenied, .acl, .queryUsers, .cryptSetup,
   .contextActionModify, .contextAction, .userList, .voiceTarget,
   .permissionQuery, .codecVersion, .userStats, .requestBlob, .serverConfig]

/-- Embedding of `Protocol.MESSAGE_ID` (line 82): `dict([(v, k) for k, v in enumerate(ID_MESSAGE)])`. -/
def MESSAGE_ID : List (MsgKind × Nat) :=
  ID_MESSAGE.enum.map (fun p => (p.2, p.1))

/-- Dictionary lookup in `MESSAGE_ID`. -/
def messageIdLookup (k : MsgKind) : Option Nat :=
  (MESSAGE_ID.find? (fun p => p.1 = k)).map (fun p => p.2)

/-- Embedding of `PREFIX_LENGTH` (line 49). -/
def PREFIX_LENGTH : Nat := 6

/-! ## Frame decoder (`Protocol.dataReceived`, lines 176-216) -/

/-- Byte access with Python slicing semantics for in-range indices. -/
def byteAt (b : List Nat) (i : Nat) : Nat := b.getD i 0

/-- The `>H` part of `struct.unpack(">HI", ...)`: big-endian u16 from bytes 0-1. -/
def readU16 (b : List Nat) : Nat := byteAt b 0 * 256 + byteAt b 1

/-- The `>I` part of `struct.unpack(">HI", ...)`: big-endian u32 from bytes 2-5. -/
def readU32 (b : List Nat) : Nat :=
  ((byteAt b 2 * 256 + byteAt b 3) * 256 + byteAt b 4) * 256 + byteAt b 5

/-- Embedding of `struct.pack(">HI", t, n)`: the 6-byte header (t < 2^16, n < 2^32). -/
def packPrefix (t n : Nat) : List Nat :=
  [t / 256, t % 256, n / 2 ^ 24, n / 2 ^ 16 % 256, n / 2 ^ 8 % 256, n % 256]

/-- A whole wire frame: header plus payload (the framing side of `sendProtobuf`). -/
def encodeFrame (t : Nat) (payload : List Nat) : List Nat :=
  packPrefix t payload.length ++ payload

/-- Concatenation of a sequence of frames into one byte stream. -/
def encodeFrames (fs : List (Nat × List Nat)) : List Nat :=
  (fs.map (fun f => encodeFrame f.1 f.2)).flatten

/-- Result of running the `while` loop of `dataReceived` on one buffer:
remaining buffer, dispatched `(msg_type, parsed message)` pairs in order,
number of handler exceptions caught at lines 210-214, whether
`loseConnection` was called for an invalid tag (line 194), and whether an
exception escaped the loop (a `ParseFromString` failure, line 205, which is
outside the `try`). -/
structure LoopOut (α : Type) where
  buf : List Nat
  out : List (Nat × α)
  errs : Nat
  lost : Bool
  escaped : Bool
deriving DecidableEq, Repr

/-- The `while` loop of `dataReceived` (lines 181-216).  `parse t pl` models
`ID_MESSAGE[t]().ParseFromString(pl)` (`none` = raised); `handle t m` models
`recvProtobuf(t, m)` (`false` = raised, caught by the `try` at line 210). -/
def decodeLoop (parse : Nat → List Nat → Option α) (handle : Nat → α → Bool)
    (buf : List Nat) : LoopOut α :=
  if _h6 : buf.length < PREFIX_LENGTH then
    ⟨buf, [], 0, false, false⟩
  else
    let msg_type := readU16 buf
    let length := readU32 buf
    let full_length := PREFIX_LENGTH + length
    if ID_MESSAGE.length ≤ msg_type then
      -- line 192: msg_type not in MESSAGE_ID.values() — lose the connection
      ⟨buf, [], 0, true, false⟩
    else if _hfull : buf.length < full_length then
      -- line 199: wait for more data, buffer untouched
      ⟨buf, [], 0, false, false⟩
    else
      match parse msg_type ((buf.drop PREFIX_LENGTH).take length) with
      | none => ⟨buf, [], 0, false, true⟩  -- DecodeError escapes; buffer untouched
      | some m =>
        let ok := handle msg_type m
        let rest := decodeLoop parse handle (buf.drop full_length)
        ⟨rest.buf, (msg_type, m) :: rest.out,
         (if ok then 0 else 1) + rest.errs, rest.lost, rest.escaped⟩
termination_by buf.length
decreasing_by
  simp only [List.length_drop]
  simp only [PREFIX_LENGTH] at *
  omega

/-- The decoder-visible connection state. -/
structure DecState (α : Type) where
  received : List Nat
  dispatched : List (Nat × α)
  errors : Nat
  lostConnection : Bool
  escaped : Bool
deriving DecidableEq, Repr

/-- Initial decoder state (`self.received = ""`, line 102). -/
def initDecState : DecState α := ⟨[], [], 0, false, false⟩

/-- Embedding of `Protocol.dataReceived(recv)` (lines 176-216): append, then run the loop. -/
def dataReceived (parse : Nat → List Nat → Option α) (handle : Nat → α → Bool)
    (st : DecState α) (recv : List Nat) : DecState α :=
  let r := decodeLoop parse handle (st.received ++ recv)
  ⟨r.buf, st.dispatched ++ r.out, st.errors + r.errs,
   st.lostConnection || r.lost, st.escaped || r.escaped⟩

/-- Deliver a list of chunks one `dataReceived` call at a time. -/
def feed (parse : Nat → List Nat → Option α) (handle : Nat → α → Bool)
    (chunks : List (List Nat)) : DecState α :=
  chunks.foldl (dataReceived parse handle) initDecState

/-- The messages a list of frames decodes to. -/
def decodeMsgs (parse : Nat → List Nat → Option α)
    (fs : List (Nat × List Nat)) : List (Nat × α) :=
  fs.filterMap (fun f => (parse f.1 f.2).map (fun m => (f.1, m)))

/-- The number of caught handler exceptions over a list of frames. -/
def errCount (parse : Nat → List Nat → Option α) (handle : Nat → α → Bool)
    (fs : List (Nat × List Nat)) : Nat :=
  ((decodeMsgs parse fs).filter (fun q => !(handle q.1 q.2))).length

/-- A frame the decoder accepts and parses: registered tag, encodable length,
successful payload parse. -/
def GoodFrame (parse : Nat → List Nat → Option α) (f : Nat × List Nat) : Prop :=
  f.1 < ID_MESSAGE.length ∧ f.2.length < 2 ^ 32 ∧ (parse f.1 f.2).isSome = true

instance {α : Type} (parse : Nat → List Nat → Option α) (f : Nat × List Nat) :
    Decidable (GoodFrame parse f) := by
  unfold GoodFrame
  infer_instance

/-! ### Basic facts about the registry table and the header codec -/

theorem ID_MESSAGE_length : ID_MESSAGE.length = 25 := rfl

theorem length_packPrefix (t n : Nat) : (packPrefix t n).length = 6 := rfl

theorem length_encodeFrame (t : Nat) (pl : List Nat) :
    (encodeFrame t pl).length = 6 + pl.length := by
  simp [encodeFrame, length_packPrefix]

theorem readU16_pack (t n : Nat) (rest : List Nat) :
    readU16 (packPrefix t n ++ rest) = t := by
  simp only [readU16, packPrefix, byteAt, List.cons_append, List.getD_cons_zero,
    List.getD_cons_succ]
  omega

theorem readU32_pack (t n : Nat) (hn : n < 2 ^ 32) (rest : List Nat) :
    readU32 (packPrefix t n ++ rest) = n := by
  simp only [readU32, packPrefix, byteAt, List.cons_append, List.getD_cons_zero,
    List.getD_cons_succ]
  omega

theorem readU16_append (b e : List Nat) (hb : 2 ≤ b.length) :
    readU16 (b ++ e) = readU16 b := by
  simp only [readU16, byteAt]
  rw [List.getD_append _ _ _ _ (by omega), List.getD_append _ _ _ _ (by omega)]

theorem readU32_append (b e : List Nat) (hb : 6 ≤ b.length) :
    readU32 (b ++ e) = readU32 b := by
  simp only [readU32, byteAt]
  rw [List.getD_append _ _ _ _ (by omega), List.getD_append _ _ _ _ (by omega),
    List.getD_append _ _ _ _ (by omega), List.getD_append _ _ _ _ (by omega)]

/-! ### Case lemmas for one iteration of the decode loop -/

section DecodeLoopLemmas

variable {α : Type} (p : Nat → List Nat → Option α) (hdl : Nat → α → Bool)

theorem decodeLoop_short (buf : List Nat) (hb : buf.length < 6) :
    decodeLoop p hdl buf = ⟨buf, [], 0, false, false⟩ := by
  rw [decodeLoop]
  simp [PREFIX_LENGTH, hb]

theorem decodeLoop_badTag (buf : List Nat) (hb : 6 ≤ buf.length)
    (ht : 25 ≤ readU16 buf) :
    decodeLoop p hdl buf = ⟨buf, [], 0, true, false⟩ := by
  rw [decodeLoop]
  simp [PREFIX_LENGTH, Nat.not_lt.2 hb, ID_MESSAGE_length, ht]

theorem decodeLoop_waitData (buf : List Nat) (hb : 6 ≤ buf.length)
    (ht : readU16 buf < 25) (hw : buf.length < 6 + readU32 buf) :
    decodeLoop p hdl buf = ⟨buf, [], 0, false, false⟩ := by
  rw [decodeLoop]
  simp [PREFIX_LENGTH, Nat.not_lt.2 hb, ID_MESSAGE_length, Nat.not_le.2 ht, hw]

theorem decodeLoop_parseFail (buf : List Nat) (hb : 6 ≤ buf.length)
    (ht : readU16 buf < 25) (hw : 6 + readU32 buf ≤ buf.length)
    (hp : p (readU16 buf) ((buf.drop 6).take (readU32 buf)) = none) :
    decodeLoop p hdl buf = ⟨buf, [], 0, false, true⟩ := by
  rw [decodeLoop]
  simp [PREFIX_LENGTH, Nat.not_lt.2 hb, ID_MESSAGE_length, Nat.not_le.2 ht,
    Nat.not_lt.2 hw, hp]

theorem decodeLoop_step (buf : List Nat) (m : α) (hb : 6 ≤ buf.length)
    (ht : readU16 buf < 25) (hw : 6 + readU32 buf ≤ buf.length)
    (hp : p (readU16 buf) ((buf.drop 6).take (readU32 buf)) = some m) :
    decodeLoop p hdl buf =
      let rest := decodeLoop p hdl (buf.drop (6 + readU32 buf))
      ⟨rest.buf, (readU16 buf, m) :: rest.out,
       (if hdl (readU16 buf) m then 0 else 1) + rest.errs, rest.lost,
       rest.escaped⟩ := by
  rw [decodeLoop]
  simp [PREFIX_LENGTH, Nat.not_lt.2 hb, ID_MESSAGE_length, Nat.not_le.2 ht,
    Nat.not_lt.2 hw, hp]

end DecodeLoopLemmas

/-! ### Incremental decoding: appending bytes to a buffer that is waiting for
more data continues exactly where the previous call stopped. -/

/-- Appending further bytes `e` to a buffer whose processing ended normally
(no lost connection, no escaped exception) yields the outputs of the first
buffer followed by the outputs of processing the leftover plus `e`. -/
theorem decodeLoop_append {α : Type} (p : Nat → List Nat → Option α)
    (hdl : Nat → α → Bool) :
    ∀ (n : Nat) (buf e : List Nat), buf.length ≤ n →
    (decodeLoop p hdl buf).lost = false →
    (decodeLoop p hdl buf).escaped = false →
    decodeLoop p hdl (buf ++ e) =
      ⟨(decodeLoop p hdl ((decodeLoop p hdl buf).buf ++ e)).buf,
       (decodeLoop p hdl buf).out ++
         (decodeLoop p hdl ((decodeLoop p hdl buf).buf ++ e)).out,
       (decodeLoop p hdl buf).errs +
         (decodeLoop p hdl ((decodeLoop p hdl buf).buf ++ e)).errs,
       (decodeLoop p hdl ((decodeLoop p hdl buf).buf ++ e)).lost,
       (decodeLoop p hdl ((decodeLoop p hdl buf).buf ++ e)).escaped⟩ := by
  intro n
  induction n with
  | zero =>
    intro buf e hlen _ _
    have hbuf : buf = [] := List.eq_nil_of_length_eq_zero (Nat.le_zero.1 hlen)
    subst hbuf
    rw [decodeLoop_short p hdl [] (by simp)]
    simp
  | succ n ih =>
    intro buf e hlen hlost hesc
    by_cases h6 : buf.length < 6
    · rw [decodeLoop_short p hdl buf h6]
      simp
    · push_neg at h6
      by_cases htag : 25 ≤ readU16 buf
      · rw [decodeLoop_badTag p hdl buf h6 htag] at hlost
        simp at hlost
      · push_neg at htag
        by_cases hfull : buf.length < 6 + readU32 buf
        · rw [decodeLoop_waitData p hdl buf h6 htag hfull]
          simp
        · push_neg at hfull
          have h6e : 6 ≤ (buf ++ e).length := by
            simp only [List.length_append]; omega
          have h16 : readU16 (buf ++ e) = readU16 buf :=
            readU16_append buf e (by omega)
          have h32 : readU32 (buf ++ e) = readU32 buf :=
            readU32_append buf e h6
          have hslice : ((buf ++ e).drop 6).take (readU32 buf) =
              (buf.drop 6).take (readU32 buf) := by
            rw [List.drop_append_of_le_length h6,
              List.take_append_of_le_length (by simp [List.length_drop]; omega)]
          cases hp : p (readU16 buf) ((buf.drop 6).take (readU32 buf)) with
          | none =>
            rw [decodeLoop_parseFail p hdl buf h6 htag hfull hp] at hesc
            simp at hesc
          | some m =>
            have hstep := decodeLoop_step p hdl buf m h6 htag hfull hp
            have hstepE : decodeLoop p hdl ((buf ++ e)) =
                let rest := decodeLoop p hdl ((buf ++ e).drop (6 + readU32 (buf ++ e)))
                ⟨rest.buf, (readU16 (buf ++ e), m) :: rest.out,
                 (if hdl (readU16 (buf ++ e)) m then 0 else 1) + rest.errs,
                 rest.lost, rest.escaped⟩ := by
              refine decodeLoop_step p hdl (buf ++ e) m h6e ?_ ?_ ?_
              · rw [h16]; exact htag
              · rw [h32]; simp only [List.length_append]; omega
              · rw [h16, h32, hslice]; exact hp
            rw [h16, h32] at hstepE
            have hdropE : (buf ++ e).drop (6 + readU32 buf) =
                buf.drop (6 + readU32 buf) ++ e :=
              List.drop_append_of_le_length hfull
            rw [hdropE] at hstepE
            -- apply the induction hypothesis to the rest of the buffer
            have hlen' : (buf.drop (6 + readU32 buf)).length ≤ n := by
              simp only [List.length_drop]; omega
            have hlost' : (decodeLoop p hdl (buf.drop (6 + readU32 buf))).lost = false := by
              rw [hstep] at hlost; simpa using hlost
            have hesc' : (decodeLoop p hdl (buf.drop (6 + readU32 buf))).escaped = false := by
              rw [hstep] at hesc; simpa using hesc
            have := ih (buf.drop (6 + readU32 buf)) e hlen' hlost' hesc'
            rw [this] at hstepE
            rw [hstepE, hstep]
            simp [Nat.add_assoc]

/-! ### Processing a stream of well-formed frames -/

theorem byteAt_eq_of_pre {q w : List Nat} (hpre : q <+: w) {i : Nat}
    (hi : i < q.length) : byteAt w i = byteAt q i := by
  obtain ⟨u, rfl⟩ := hpre
  simp only [byteAt]
  rw [List.getD_append _ _ _ _ hi]

/-- Processing the exact concatenation of well-formed, parseable frames
dispatches them all, counts the caught handler exceptions, and consumes the
whole buffer without closing the connection. -/
theorem decodeLoop_encodeFrames {α : Type} (p : Nat → List Nat → Option α)
    (hdl : Nat → α → Bool) :
    ∀ (fs : List (Nat × List Nat)), (∀ f ∈ fs, GoodFrame p f) →
    decodeLoop p hdl (encodeFrames fs) =
      ⟨[], decodeMsgs p fs, errCount p hdl fs, false, false⟩ := by
  intro fs
  induction fs with
  | nil =>
    intro _
    rw [show encodeFrames [] = [] from rfl, decodeLoop_short p hdl [] (by simp)]
    rfl
  | cons f fs ih =>
    intro hgood
    obtain ⟨ht25, hlen32, hsome⟩ := hgood f (by simp)
    obtain ⟨m, hm⟩ := Option.isSome_iff_exists.1 hsome
    have hrest : ∀ g ∈ fs, GoodFrame p g := fun g hg => hgood g (by simp [hg])
    have hstream : encodeFrames (f :: fs) =
        packPrefix f.1 f.2.length ++ (f.2 ++ encodeFrames fs) := by
      simp [encodeFrames, encodeFrame, List.append_assoc]
    have hlenstream : 6 + f.2.length ≤ (encodeFrames (f :: fs)).length := by
      rw [hstream]
      simp [length_packPrefix]
    have h16 : readU16 (encodeFrames (f :: fs)) = f.1 := by
      rw [hstream, readU16_pack]
    have h32 : readU32 (encodeFrames (f :: fs)) = f.2.length := by
      rw [hstream, readU32_pack _ _ hlen32]
    have hdrop6 : (encodeFrames (f :: fs)).drop 6 = f.2 ++ encodeFrames fs := by
      rw [hstream, show (6 : Nat) = (packPrefix f.1 f.2.length).length from rfl,
        List.drop_left]
    have hslice : ((encodeFrames (f :: fs)).drop 6).take f.2.length = f.2 := by
      rw [hdrop6, List.take_left]
    have hdropFull : (encodeFrames (f :: fs)).drop (6 + f.2.length) =
        encodeFrames fs := by
      have : encodeFrames (f :: fs) =
          (packPrefix f.1 f.2.length ++ f.2) ++ encodeFrames fs := by
        rw [hstream, List.append_assoc]
      rw [this, show 6 + f.2.length = (packPrefix f.1 f.2.length ++ f.2).length by
        simp [length_packPrefix], List.drop_left]
    have hstep := decodeLoop_step p hdl (encodeFrames (f :: fs)) m
      (by omega) (by rw [h16]; exact ht25) (by rw [h32]; exact hlenstream)
      (by rw [h16, h32, hslice]; exact hm)
    rw [hstep]
    simp only [h16, h32, hdropFull, ih hrest]
    have hmsgs : decodeMsgs p (f :: fs) = (f.1, m) :: decodeMsgs p fs := by
      simp [decodeMsgs, hm]
    have herr : errCount p hdl (f :: fs) =
        (if hdl f.1 m then 0 else 1) + errCount p hdl fs := by
      simp only [errCount, hmsgs, List.filter_cons]
      by_cases hh : hdl f.1 m <;> simp [hh] <;> try omega
    rw [hmsgs, herr]

/-- Processing any prefix of a stream of well-formed frames neither closes the
connection nor lets an exception escape. -/
theorem decodeLoop_prefix_flags {α : Type} (p : Nat → List Nat → Option α)
    (hdl : Nat → α → Bool) :
    ∀ (fs : List (Nat × List Nat)) (s : List Nat),
    (∀ f ∈ fs, GoodFrame p f) → s <+: encodeFrames fs →
    (decodeLoop p hdl s).lost = false ∧ (decodeLoop p hdl s).escaped = false := by
  intro fs
  induction fs with
  | nil =>
    intro s _ hpre
    have : s = [] := List.prefix_nil.1 hpre
    subst this
    rw [decodeLoop_short p hdl [] (by simp)]
    exact ⟨rfl, rfl⟩
  | cons f fs ih =>
    intro s hgood hpre
    obtain ⟨ht25, hlen32, hsome⟩ := hgood f (by simp)
    obtain ⟨m, hm⟩ := Option.isSome_iff_exists.1 hsome
    have hrest : ∀ g ∈ fs, GoodFrame p g := fun g hg => hgood g (by simp [hg])
    by_cases h6 : s.length < 6
    · rw [decodeLoop_short p hdl s h6]; exact ⟨rfl, rfl⟩
    · push_neg at h6
      have hstream : encodeFrames (f :: fs) =
          packPrefix f.1 f.2.length ++ (f.2 ++ encodeFrames fs) := by
        simp [encodeFrames, encodeFrame, List.append_assoc]
      have h16 : readU16 s = f.1 := by
        have e0 : byteAt s 0 = byteAt (encodeFrames (f :: fs)) 0 :=
          (byteAt_eq_of_pre hpre (by omega)).symm
        have e1 : byteAt s 1 = byteAt (encodeFrames (f :: fs)) 1 :=
          (byteAt_eq_of_pre hpre (by omega)).symm
        have := readU16_pack f.1 f.2.length (f.2 ++ encodeFrames fs)
        rw [← hstream] at this
        simp only [readU16] at this ⊢
        rw [e0, e1, this]
      have h32 : readU32 s = f.2.length := by
        have e2 : byteAt s 2 = byteAt (encodeFrames (f :: fs)) 2 :=
          (byteAt_eq_of_pre hpre (by omega)).symm
        have e3 : byteAt s 3 = byteAt (encodeFrames (f :: fs)) 3 :=
          (byteAt_eq_of_pre hpre (by omega)).symm
        have e4 : byteAt s 4 = byteAt (encodeFrames (f :: fs)) 4 :=
          (byteAt_eq_of_pre hpre (by omega)).symm
        have e5 : byteAt s 5 = byteAt (encodeFrames (f :: fs)) 5 :=
          (byteAt_eq_of_pre hpre (by omega)).symm
        have := readU32_pack f.1 f.2.length hlen32 (f.2 ++ encodeFrames fs)
        rw [← hstream] at this
        simp only [readU32] at this ⊢
        rw [e2, e3, e4, e5, this]
      by_cases hfull : s.length < 6 + f.2.length
      · rw [decodeLoop_waitData p hdl s h6 (by rw [h16]; exact ht25)
          (by rw [h32]; exact hfull)]
        exact ⟨rfl, rfl⟩
      · push_neg at hfull
        -- the frame is fully contained in s: peel it off
        obtain ⟨u, hu⟩ := hpre
        have hflen : (encodeFrame f.1 f.2).length = 6 + f.2.length :=
          length_encodeFrame f.1 f.2
        have h3 : encodeFrames (f :: fs) = encodeFrame f.1 f.2 ++ encodeFrames fs := by
          simp [encodeFrames]
        have htake : s.take (6 + f.2.length) = encodeFrame f.1 f.2 := by
          have hc := congrArg (List.take (6 + f.2.length)) hu
          rw [List.take_append_of_le_length hfull, h3, List.take_left' hflen] at hc
          exact hc
        have hsplit : s = encodeFrame f.1 f.2 ++ s.drop (6 + f.2.length) := by
          conv_lhs => rw [← List.take_append_drop (6 + f.2.length) s]
          rw [htake]
        have hpre' : s.drop (6 + f.2.length) <+: encodeFrames fs := by
          refine ⟨u, ?_⟩
          have hc := congrArg (List.drop (6 + f.2.length)) hu
          rw [List.drop_append_of_le_length hfull, h3, List.drop_left' hflen] at hc
          exact hc
        have hslice : (s.drop 6).take f.2.length = f.2 := by
          have hd6 : s.drop 6 = f.2 ++ s.drop (6 + f.2.length) := by
            have hc := congrArg (List.drop 6) hsplit
            rw [show encodeFrame f.1 f.2 ++ s.drop (6 + f.2.length) =
              packPrefix f.1 f.2.length ++ (f.2 ++ s.drop (6 + f.2.length)) by
                simp [encodeFrame, List.append_assoc],
              List.drop_left' (length_packPrefix f.1 f.2.length)] at hc
            exact hc
          rw [hd6, List.take_left]
        have hstep := decodeLoop_step p hdl s m h6 (by rw [h16]; exact ht25)
          (by rw [h32]; exact hfull) (by rw [h16, h32, hslice]; exact hm)
        rw [hstep]
        have := ih (s.drop (6 + f.2.length)) hrest hpre'
        rw [h32]
        exact ⟨this.1, this.2⟩

/-- Two successive deliveries behave like one delivery of the concatenation,
as long as the first delivery neither closed the connection nor let an
exception escape. -/
theorem dataReceived_comp {α : Type} (p : Nat → List Nat → Option α)
    (hdl : Nat → α → Bool) (st : DecState α) (r₁ r₂ : List Nat)
    (hlost : (decodeLoop p hdl (st.received ++ r₁)).lost = false)
    (hesc : (decodeLoop p hdl (st.received ++ r₁)).escaped = false) :
    dataReceived p hdl (dataReceived p hdl st r₁) r₂ =
      dataReceived p hdl st (r₁ ++ r₂) := by
  simp only [dataReceived]
  rw [← List.append_assoc,
    decodeLoop_append p hdl (st.received ++ r₁).length (st.received ++ r₁) r₂
      le_rfl hlost hesc]
  simp [hlost, hesc, List.append_assoc, Nat.add_assoc]

/-- Delivering an empty chunk to the pristine state is a no-op. -/
theorem dataReceived_nil {α : Type} (p : Nat → List Nat → Option α)
    (hdl : Nat → α → Bool) :
    dataReceived p hdl initDecState [] = (initDecState : DecState α) := by
  simp only [dataReceived, initDecState, List.nil_append]
  rw [decodeLoop_short p hdl [] (by simp)]
  rfl

/-- Folding chunks whose concatenation is a valid frame stream equals a single
whole-stream delivery. -/
theorem feed_eq_whole {α : Type} (p : Nat → List Nat → Option α)
    (hdl : Nat → α → Bool) (fs : List (Nat × List Nat))
    (hgood : ∀ f ∈ fs, GoodFrame p f) :
    ∀ (chunks : List (List Nat)) (pre : List Nat),
    pre ++ chunks.flatten = encodeFrames fs →
    chunks.foldl (dataReceived p hdl) (dataReceived p hdl initDecState pre) =
      dataReceived p hdl initDecState (pre ++ chunks.flatten) := by
  intro chunks
  induction chunks with
  | nil =>
    intro pre _
    simp
  | cons c cs ih =>
    intro pre hjoin
    have hpre : pre <+: encodeFrames fs := by
      refine ⟨(c :: cs).flatten, hjoin⟩
    have hflags := decodeLoop_prefix_flags p hdl fs pre hgood hpre
    have hcomp : dataReceived p hdl (dataReceived p hdl initDecState pre) c =
        dataReceived p hdl initDecState (pre ++ c) := by
      refine dataReceived_comp p hdl initDecState pre c ?_ ?_
      · simpa [initDecState] using hflags.1
      · simpa [initDecState] using hflags.2
    have hjoin' : (pre ++ c) ++ cs.flatten = encodeFrames fs := by
      rw [List.append_assoc]
      simpa [List.flatten_cons, List.append_assoc] using hjoin
    calc (c :: cs).foldl (dataReceived p hdl)
          (dataReceived p hdl initDecState pre)
        = cs.foldl (dataReceived p hdl)
            (dataReceived p hdl (dataReceived p hdl initDecState pre) c) := rfl
      _ = cs.foldl (dataReceived p hdl)
            (dataReceived p hdl initDecState (pre ++ c)) := by rw [hcomp]
      _ = dataReceived p hdl initDecState ((pre ++ c) ++ cs.flatten) :=
            ih (pre ++ c) hjoin'
      _ = dataReceived p hdl initDecState (pre ++ (c :: cs).flatten) := by
            rw [List.flatten_cons, ← List.append_assoc]

/-- C1. For every sequence of well-formed frames and every way of splitting
the encoded byte stream into chunks across successive `dataReceived` calls,
feeding the chunks one at a time yields exactly the state — in particular the
same sequence of decoded, dispatched messages — of a single whole-stream
delivery: all frames are dispatched in order, the buffer ends empty, and the
connection is never closed.  Moreover (re-entrancy) a delivery that ends on a
partial frame leaves all buffered bytes unconsumed and dispatches nothing. -/
theorem dataReceived_chunking_invariant {α : Type}
    (p : Nat → List Nat → Option α) (hdl : Nat → α → Bool)
    (fs : List (Nat × List Nat)) (chunks : List (List Nat))
    (hgood : ∀ f ∈ fs, GoodFrame p f)
    (hjoin : chunks.flatten = encodeFrames fs) :
    feed p hdl chunks = dataReceived p hdl initDecState (encodeFrames fs) ∧
    (feed p hdl chunks).dispatched = decodeMsgs p fs ∧
    (feed p hdl chunks).received = [] ∧
    (feed p hdl chunks).lostConnection = false ∧
    (feed p hdl chunks).escaped = false ∧
    (∀ (st : DecState α) (recv : List Nat),
      ((st.received ++ recv).length < 6 ∨
        (readU16 (st.received ++ recv) < 25 ∧
          (st.received ++ recv).length < 6 + readU32 (st.received ++ recv))) →
      (dataReceived p hdl st recv).received = st.received ++ recv ∧
      (dataReceived p hdl st recv).dispatched = st.dispatched) := by
  have hwhole : dataReceived p hdl initDecState (encodeFrames fs) =
      ⟨[], decodeMsgs p fs, errCount p hdl fs, false, false⟩ := by
    simp only [dataReceived, initDecState, List.nil_append]
    rw [decodeLoop_encodeFrames p hdl fs hgood]
    simp
  have hfeed : feed p hdl chunks =
      dataReceived p hdl initDecState (encodeFrames fs) := by
    have := feed_eq_whole p hdl fs hgood chunks [] (by simpa using hjoin)
    rw [dataReceived_nil] at this
    simpa [feed, hjoin] using this
  refine ⟨hfeed, ?_, ?_, ?_, ?_, ?_⟩
  · rw [hfeed, hwhole]
  · rw [hfeed, hwhole]
  · rw [hfeed, hwhole]
  · rw [hfeed, hwhole]
  · intro st recv hcase
    simp only [dataReceived]
    rcases hcase with hshort | ⟨htag, hpart⟩
    · rw [decodeLoop_short p hdl _ hshort]
      exact ⟨rfl, by simp⟩
    · by_cases hshort : (st.received ++ recv).length < 6
      · rw [decodeLoop_short p hdl _ hshort]
        exact ⟨rfl, by simp⟩
      · rw [decodeLoop_waitData p hdl _ (by omega) htag hpart]
        exact ⟨rfl, by simp⟩

/-- Witness for C1 at a concrete stream (a Version frame and a Ping frame,
delivered in three uneven chunks). -/
theorem dataReceived_chunking_invariant_witness :
    (∀ f ∈ [((0 : Nat), [1, 2, 3]), ((3 : Nat), ([] : List Nat))],
        GoodFrame (fun t pl => some (t, pl)) f) ∧
    ([[0, 0, 0, 0], [0, 3, 1, 2, 3, 0, 3, 0], [0, 0, 0]] :
        List (List Nat)).flatten =
      encodeFrames [(0, [1, 2, 3]), (3, [])] ∧
    (feed (fun t pl => some (t, pl)) (fun _ _ => true)
        [[0, 0, 0, 0], [0, 3, 1, 2, 3, 0, 3, 0], [0, 0, 0]]).dispatched =
      decodeMsgs (fun t pl => some (t, pl)) [(0, [1, 2, 3]), (3, [])] := by
  refine ⟨by decide, by decide, ?_⟩
  exact (dataReceived_chunking_invariant (fun t pl => some (t, pl))
    (fun _ _ => true) [(0, [1, 2, 3]), (3, [])]
    [[0, 0, 0, 0], [0, 3, 1, 2, 3, 0, 3, 0], [0, 0, 0]]
    (by decide) (by decide)).2.1

/-- Evaluation of `encodeFrames` at a single frame. -/
theorem encodeFrames_singleton (t : Nat) (pl : List Nat) :
    encodeFrames [(t, pl)] = encodeFrame t pl := by
  simp [encodeFrames]

/-- C5. An incoming header whose wire tag is `≥ 25` (outside
`Protocol.ID_MESSAGE`) makes the decoder lose the connection at once, with
nothing dispatched and the buffer unconsumed; and every tag `t < 25` is
accepted: a well-formed frame with tag `t` is dispatched (all tags reach
`recvProtobuf`, which handles every registered kind). -/
theorem tag_bounds {α : Type} (p : Nat → List Nat → Option α)
    (hdl : Nat → α → Bool) :
    (∀ (st : DecState α) (recv : List Nat),
      6 ≤ (st.received ++ recv).length → 25 ≤ readU16 (st.received ++ recv) →
      dataReceived p hdl st recv =
        ⟨st.received ++ recv, st.dispatched, st.errors, true, st.escaped⟩) ∧
    (∀ (t : Nat) (payload : List Nat) (m : α), t < 25 →
      payload.length < 2 ^ 32 → p t payload = some m →
      dataReceived p hdl initDecState (encodeFrame t payload) =
        ⟨[], [(t, m)], if hdl t m then 0 else 1, false, false⟩) := by
  constructor
  · intro st recv hlen htag
    simp only [dataReceived]
    rw [decodeLoop_badTag p hdl _ hlen htag]
    simp
  · intro t payload m ht hlen hp
    have hgood : ∀ f ∈ [(t, payload)], GoodFrame p f := by
      intro f hf
      simp only [List.mem_singleton] at hf
      subst hf
      exact ⟨by rw [ID_MESSAGE_length]; exact ht, hlen, by rw [hp]; rfl⟩
    have := decodeLoop_encodeFrames p hdl [(t, payload)] hgood
    rw [encodeFrames_singleton] at this
    simp only [dataReceived, initDecState, List.nil_append]
    rw [this]
    simp [decodeMsgs, errCount, hp, List.filter_cons]
    by_cases hh : hdl t m <;> simp [hh]

/-- Witness for C5 (tag 25 is rejected with the buffer kept; tag 3 is
dispatched). -/
theorem tag_bounds_witness :
    (6 ≤ (([] : List Nat) ++ [0, 25, 0, 0, 0, 0]).length ∧
      25 ≤ readU16 (([] : List Nat) ++ [0, 25, 0, 0, 0, 0]) ∧
      dataReceived (fun t pl => some (t, pl)) (fun _ _ => true)
          initDecState [0, 25, 0, 0, 0, 0] =
        ⟨[0, 25, 0, 0, 0, 0], [], 0, true, false⟩) ∧
    ((3 : Nat) < 25 ∧ ([(7 : Nat)] : List Nat).length < 2 ^ 32 ∧
      dataReceived (fun t pl => some (t, pl)) (fun _ _ => true)
          initDecState (encodeFrame 3 [7]) =
        ⟨[], [(3, (3, [7]))], 0, false, false⟩) := by
  constructor
  · refine ⟨by decide, by decide, ?_⟩
    exact (tag_bounds (fun t pl => some (t, pl)) (fun _ _ => true)).1
      initDecState [0, 25, 0, 0, 0, 0] (by decide) (by decide)
  · refine ⟨by decide, by decide, ?_⟩
    exact (tag_bounds (fun t pl => some (t, pl)) (fun _ _ => true)).2
      3 [7] (3, [7]) (by decide) (by decide) rfl

/-- C6 counterexample.  A buffer holding two well-framed messages whose
payload parse fails on the first (`ParseFromString` raising, line 205): the
claim predicts the bad frame's bytes are consumed and processing continues,
but the exception is raised outside the `try` of line 210, so the whole buffer
is kept, nothing is dispatched, and the exception escapes `dataReceived`. -/
theorem parse_failure_not_discarded_counterexample :
    (dataReceived (fun _ _ => (none : Option Unit)) (fun _ _ => true)
        initDecState [0, 0, 0, 0, 0, 0, 0, 3, 0, 0, 0, 0]).received ≠
      ([0, 0, 0, 0, 0, 0, 0, 3, 0, 0, 0, 0] : List Nat).drop 6 ∧
    (dataReceived (fun _ _ => (none : Option Unit)) (fun _ _ => true)
        initDecState [0, 0, 0, 0, 0, 0, 0, 3, 0, 0, 0, 0]).received =
      [0, 0, 0, 0, 0, 0, 0, 3, 0, 0, 0, 0] ∧
    (dataReceived (fun _ _ => (none : Option Unit)) (fun _ _ => true)
        initDecState [0, 0, 0, 0, 0, 0, 0, 3, 0, 0, 0, 0]).dispatched = [] ∧
    (dataReceived (fun _ _ => (none : Option Unit)) (fun _ _ => true)
        initDecState [0, 0, 0, 0, 0, 0, 0, 3, 0, 0, 0, 0]).escaped = true := by
  have h := decodeLoop_parseFail (fun _ _ => (none : Option Unit))
    (fun _ _ => true) [0, 0, 0, 0, 0, 0, 0, 3, 0, 0, 0, 0]
    (by decide) (by decide) (by decide) rfl
  have hd : dataReceived (fun _ _ => (none : Option Unit)) (fun _ _ => true)
      initDecState [0, 0, 0, 0, 0, 0, 0, 3, 0, 0, 0, 0] =
      ⟨[0, 0, 0, 0, 0, 0, 0, 3, 0, 0, 0, 0], [], 0, false, true⟩ := by
    simp only [dataReceived, initDecState, List.nil_append]
    rw [h]
    rfl
  rw [hd]
  refine ⟨by decide, rfl, rfl, rfl⟩

/-- C6 amended.  When payload deserialization of an otherwise well-framed
message fails, the exception is *not* caught inside the decode loop (the `try`
covers only `recvProtobuf`): it escapes `dataReceived`, the frame's bytes are
left unconsumed in the buffer, nothing further is dispatched in that call, and
the transport is not closed by the loop itself. -/
theorem parse_failure_escapes {α : Type} (p : Nat → List Nat → Option α)
    (hdl : Nat → α → Bool) (st : DecState α) (recv : List Nat)
    (hlen : 6 ≤ (st.received ++ recv).length)
    (htag : readU16 (st.received ++ recv) < 25)
    (hfull : 6 + readU32 (st.received ++ recv) ≤ (st.received ++ recv).length)
    (hp : p (readU16 (st.received ++ recv))
        (((st.received ++ recv).drop 6).take (readU32 (st.received ++ recv))) =
      none) :
    dataReceived p hdl st recv =
      ⟨st.received ++ recv, st.dispatched, st.errors, st.lostConnection,
       true⟩ := by
  simp only [dataReceived]
  rw [decodeLoop_parseFail p hdl _ hlen htag hfull hp]
  simp

/-- Witness for the amended C6. -/
theorem parse_failure_escapes_witness :
    (6 ≤ (([] : List Nat) ++ [0, 0, 0, 0, 0, 2, 9, 9]).length ∧
      readU16 (([] : List Nat) ++ [0, 0, 0, 0, 0, 2, 9, 9]) < 25 ∧
      6 + readU32 (([] : List Nat) ++ [0, 0, 0, 0, 0, 2, 9, 9]) ≤
        (([] : List Nat) ++ [0, 0, 0, 0, 0, 2, 9, 9]).length) ∧
    dataReceived (fun _ _ => (none : Option Unit)) (fun _ _ => true)
        initDecState [0, 0, 0, 0, 0, 2, 9, 9] =
      ⟨[0, 0, 0, 0, 0, 2, 9, 9], [], 0, false, true⟩ := by
  refine ⟨⟨by decide, by decide, by decide⟩, ?_⟩
  exact parse_failure_escapes (fun _ _ => (none : Option Unit))
    (fun _ _ => true) initDecState [0, 0, 0, 0, 0, 2, 9, 9]
    (by decide) (by decide) (by decide) rfl

/-- C10. When the dispatch handler (`recvProtobuf`) raises on a complete,
well-framed frame, the exception is caught and logged inside the decode loop
(one caught-error count), the frame's bytes are still removed from the buffer,
the remaining buffered frames are decoded and dispatched, and the connection
is not closed. -/
theorem handler_exception_caught {α : Type} (p : Nat → List Nat → Option α)
    (hdl : Nat → α → Bool) (f₁ f₂ : Nat × List Nat) (m₁ m₂ : α)
    (h₁ : f₁.1 < 25) (h₁len : f₁.2.length < 2 ^ 32)
    (hp₁ : p f₁.1 f₁.2 = some m₁)
    (h₂ : f₂.1 < 25) (h₂len : f₂.2.length < 2 ^ 32)
    (hp₂ : p f₂.1 f₂.2 = some m₂)
    (hfail : hdl f₁.1 m₁ = false) (hok : hdl f₂.1 m₂ = true) :
    dataReceived p hdl initDecState (encodeFrames [f₁, f₂]) =
      ⟨[], [(f₁.1, m₁), (f₂.1, m₂)], 1, false, false⟩ := by
  have hgood : ∀ f ∈ [f₁, f₂], GoodFrame p f := by
    intro f hf
    simp only [List.mem_cons, List.mem_singleton, List.not_mem_nil,
      or_false] at hf
    rcases hf with rfl | rfl
    · exact ⟨by rw [ID_MESSAGE_length]; exact h₁, h₁len, by rw [hp₁]; rfl⟩
    · exact ⟨by rw [ID_MESSAGE_length]; exact h₂, h₂len, by rw [hp₂]; rfl⟩
  simp only [dataReceived, initDecState, List.nil_append]
  rw [decodeLoop_encodeFrames p hdl [f₁, f₂] hgood]
  simp [decodeMsgs, errCount, hp₁, hp₂, List.filter_cons, hfail, hok]

/-- Witness for C10: the handler raises on the first frame; both frames end up
dispatched, the buffer is empty and the connection stays open. -/
theorem handler_exception_caught_witness :
    ((2 : Nat) < 25 ∧ (1 : Nat) < 25 ∧
      (some ((2 : Nat), ([5] : List Nat)) = some (2, [5])) ∧
      ((fun q _ => decide (q ≠ 2)) (2 : Nat) ((2 : Nat), ([5] : List Nat)) = false)) ∧
    dataReceived (fun t pl => some (t, pl)) (fun q _ => decide (q ≠ 2))
        initDecState (encodeFrames [(2, [5]), (1, [])]) =
      ⟨[], [(2, (2, [5])), (1, (1, []))], 1, false, false⟩ := by
  refine ⟨⟨by decide, by decide, rfl, by decide⟩, ?_⟩
  exact handler_exception_caught (fun t pl => some (t, pl))
    (fun q _ => decide (q ≠ 2)) (2, [5]) (1, []) (2, [5]) (1, [])
    (by decide) (by decide) rfl (by decide) (by decide) rfl (by decide)
    (by decide)

/-! ## C3: the registry table and its two lookup directions -/

/-- C3. `ID_MESSAGE` is the exact 25-entry ordered table, tag 0 is the
version-negotiation kind, and the two lookup directions are mutual inverses:
for every tag `t < 25` the reverse dictionary maps the kind at index `t` back
to `t`, and for every registered kind the kind at its reverse-mapped tag is
that kind. -/
theorem registry_bidirectional :
    ID_MESSAGE =
      [.version, .udpTunnel, .authenticate, .ping, .reject, .serverSync,
       .channelRemove, .channelState, .userRemove, .userState, .banList,
       .textMessage, .permissionDenied, .acl, .queryUsers, .cryptSetup,
       .contextActionModify, .contextAction, .userList, .voiceTarget,
       .permissionQuery, .codecVersion, .userStats, .requestBlob,
       .serverConfig] ∧
    ID_MESSAGE.length = 25 ∧
    ID_MESSAGE.getD 0 .version = .version ∧
    (∀ t : Nat, t < 25 → messageIdLookup (ID_MESSAGE.getD t .version) = some t) ∧
    (∀ k : MsgKind, ∃ t : Nat, messageIdLookup k = some t ∧
      ID_MESSAGE.getD t .version = k) := by
  refine ⟨rfl, rfl, rfl, by decide, ?_⟩
  intro k
  cases k <;> exact ⟨_, rfl, rfl⟩

/-- Witness for C3: the kind at tag 9 (user-state) reverse-maps to 9. -/
theorem registry_bidirectional_witness :
    (9 : Nat) < 25 ∧
    messageIdLookup (ID_MESSAGE.getD 9 MsgKind.version) = some 9 := by
  exact ⟨by decide, registry_bidirectional.2.2.2.1 9 (by decide)⟩

/-- Justification that the source's tag check
`msg_type not in MESSAGE_ID.values()` is the bound check used in the decoder
model: the dictionary's values are exactly the tags `0..24`. -/
theorem MESSAGE_ID_values_eq_range :
    MESSAGE_ID.map Prod.snd = List.range 25 := by decide

/-! ## Presence state graph (`handle_msg_channelstate`, `handle_msg_userstate`,
and the `UserRemove` branch of `recvProtobuf`)

Python dicts keyed by `Nat` are association lists.  Python mutates `Channel`
and `User` objects in place through shared references; every such object is
the one stored in `self.channels` / `self.users` under its id, so the
embedding stores ids and updates the maps (cf. the spec's design note
recommending an id-addressed arena). -/

/-- Association-list lookup (`d[k]` / `k in d`). -/
def alGet : List (Nat × α) → Nat → Option α
  | [], _ => none
  | (k', v) :: t, k => if k = k' then some v else alGet t k

/-- Association-list store (`d[k] = v`). -/
def alSet (l : List (Nat × α)) (k : Nat) (v : α) : List (Nat × α) :=
  (k, v) :: l.filter (fun p => p.1 ≠ k)

/-- Association-list delete (`del d[k]`). -/
def alErase (l : List (Nat × α)) (k : Nat) : List (Nat × α) :=
  l.filter (fun p => p.1 ≠ k)

theorem alGet_filter_ne (l : List (Nat × α)) (k k' : Nat) (hne : k' ≠ k) :
    alGet (l.filter (fun p => p.1 ≠ k)) k' = alGet l k' := by
  induction l with
  | nil => rfl
  | cons p t ih =>
    cases p with
    | mk a b =>
      by_cases hp : a = k
      · subst hp
        simp only [ne_eq, decide_not] at ih ⊢
        simp [List.filter_cons, alGet, hne, ih]
      · simp only [ne_eq, decide_not] at ih ⊢
        by_cases hk : k' = a <;> simp [List.filter_cons, alGet, hp, hk, ih]

theorem alGet_filter_self (l : List (Nat × α)) (k : Nat) :
    alGet (l.filter (fun p => p.1 ≠ k)) k = none := by
  induction l with
  | nil => rfl
  | cons p t ih =>
    cases p with
    | mk a b =>
      by_cases hp : a = k
      · subst hp
        simp only [ne_eq, decide_not] at ih ⊢
        simp [List.filter_cons, ih]
      · simp only [ne_eq, decide_not] at ih ⊢
        simp [List.filter_cons, alGet, hp, ih]
        omega

theorem alGet_alSet (l : List (Nat × α)) (k k' : Nat) (v : α) :
    alGet (alSet l k v) k' = if k' = k then some v else alGet l k' := by
  by_cases h : k' = k
  · simp [alSet, alGet, h]
  · simp only [alSet, alGet, if_neg h]
    exact alGet_filter_ne l k k' h

theorem alGet_alErase (l : List (Nat × α)) (k k' : Nat) :
    alGet (alErase l k) k' = if k' = k then none else alGet l k' := by
  by_cases h : k' = k
  · subst h
    simpa [alErase] using alGet_filter_self l k'
  · simp only [alErase, if_neg h]
    exact alGet_filter_ne l k k' h

/-- Embedding of `Channel` (`system/protocols/mumble/channel.py`, not under verification:
the attributes and member-set operations are modelled from the spec:
"unique integer identifier, display name, optional parent-channel identifier,
ordering position, a set of linked-channel identifiers, and a set of member
user identifiers"). -/
structure Channel where
  channel_id : Nat
  name : String
  parent : Option Nat
  position : Int
  links : List Nat
  users : List Nat
deriving DecidableEq, Repr

/-- Modelled from the spec: membership mutated whenever a user joins
(`Channel.add_user`); the member set gains the user's id. -/
def Channel.add_user (c : Channel) (s : Nat) : Channel :=
  { c with users := if c.users.contains s then c.users else s :: c.users }

/-- Modelled from the spec: membership mutated whenever a user leaves or
moves (`Channel.remove_user`); the member set loses the user's id. -/
def Channel.remove_user (c : Channel) (s : Nat) : Channel :=
  { c with users := c.users.filter (fun x => x ≠ s) }

/-- Modelled from the spec: link-add deltas are applied incrementally against
the existing link set (`Channel.add_link`). -/
def Channel.add_link (c : Channel) (l : Nat) : Channel :=
  { c with links := if c.links.contains l then c.links else l :: c.links }

/-- Modelled from the spec: link-remove deltas are applied incrementally
against the existing link set (`Channel.remove_link`). -/
def Channel.remove_link (c : Channel) (l : Nat) : Channel :=
  { c with links := c.links.filter (fun x => x ≠ l) }

/-- Embedding of `User` (`system/protocols/mumble/user.py`, not under verification: the
attributes are modelled from the spec; `channel` stores the id of the current
`Channel` object).  Constructor argument order follows the call at
protocol.py lines 424-435. -/
structure User where
  session : Nat
  nickname : String
  channel : Nat
  mute : Bool
  deaf : Bool
  suppress : Bool
  self_mute : Bool
  self_deaf : Bool
  priority_speaker : Bool
  recording : Bool
  is_tracked : Bool
deriving DecidableEq, Repr

/-- The fields of a `Mumble_pb2.UserState` message that the handler reads.
`name` is `""` when absent (proto2 string default); optional scalar fields
are `Option`s (`HasField`), read through `getD` of the proto2 default where
the code reads them without a `HasField` check. -/
structure UserStateMsg where
  session : Nat
  name : String
  actor : Nat
  channel_id : Option Nat
  mute : Option Bool
  deaf : Option Bool
  suppress : Option Bool
  self_mute : Option Bool
  self_deaf : Option Bool
  priority_speaker : Option Bool
  recording : Option Bool
deriving DecidableEq, Repr

/-- The fields of a `Mumble_pb2.ChannelState` message that the handler reads. -/
structure ChannelStateMsg where
  channel_id : Nat
  name : String
  parent : Option Nat
  position : Int
  links : List Nat
  links_add : List Nat
  links_remove : List Nat
deriving DecidableEq, Repr

/-- The fields of a `Mumble_pb2.UserRemove` message that the handler reads. -/
structure UserRemoveMsg where
  session : Nat
  actor : Nat
deriving DecidableEq, Repr

/-- The incoming messages relevant to the tracked connection state. -/
inductive Msg
  | channelState (m : ChannelStateMsg)
  | userState (m : UserStateMsg)
  | userRemove (m : UserRemoveMsg)
  | reject
deriving DecidableEq, Repr

/-- The state-change notifications run through
`EventManager.run_callback` by the handlers, with their payloads. -/
inductive Ev
  | userJoined (session : Nat)
  | userMoved (session toCh fromCh : Nat)
  | userMuteToggle (session : Nat) (v : Bool) (actor : Nat)
  | userDeafToggle (session : Nat) (v : Bool) (actor : Nat)
  | userSuppressionToggle (session : Nat) (v : Bool)
  | userSelfMuteToggle (session : Nat) (v : Bool)
  | userSelfDeafToggle (session : Nat) (v : Bool)
  | userPrioritySpeakerToggle (session : Nat) (v : Bool) (actor : Nat)
  | userRecordingToggle (session : Nat) (v : Bool)
  | userRemove (session actor : Nat)
  | userDisconnected (session : Option Nat)
  | channelLinked (linked chan : Nat)
  | channelUnlinked (linked chan : Nat)
deriving DecidableEq, Repr

/-- The protocol-instance state the handlers touch. -/
structure PState where
  channels : List (Nat × Channel)
  users : List (Nat × User)
  username : String
  ourselves : Option Nat
  pinging : Bool
  lostConnection : Bool
  pingsSent : Nat
  pingsScheduled : Nat
deriving DecidableEq, Repr

/-- State right after `__init__` (channels/users empty, `pinging = True`
class attribute, `ourselves = None`). -/
def initPState (username : String) : PState :=
  ⟨[], [], username, none, true, false, 0, 0⟩

/-- Update the channel stored under `cid`, if present (in Python the handlers
mutate the shared `Channel` object in place). -/
def updCh (st : PState) (cid : Nat) (f : Channel → Channel) : PState :=
  match alGet st.channels cid with
  | none => st
  | some c => { st with channels := alSet st.channels cid (f c) }

/-- A handler outcome: the state as mutated so far, the notifications
published so far, and whether an exception was raised (it is caught at
`dataReceived` lines 210-214, keeping state and published events). -/
abbrev HRes := PState × List Ev × Bool

/-- Embedding of `Protocol.handle_msg_channelstate` (lines 376-418).
On a new channel id with a non-empty initial `links` list the log call at
lines 385-387 looks up `self.channels[message.channel_id]`, which is not yet
present, so a `KeyError` is raised before the channel is created.  Each
`links_add` / `links_remove` element mutates the link set and then looks up
`self.channels[link]` for the log line, raising after the mutation when the
linked channel is unknown. -/
def linksAddLoop (cid : Nat) : List Nat → PState → List Ev → HRes
  | [], st, evs => (st, evs, false)
  | l :: rest, st, evs =>
    let st' := updCh st cid (fun c => c.add_link l)
    match alGet st'.channels l with
    | none => (st', evs, true)
    | some _ => linksAddLoop cid rest st' (evs ++ [Ev.channelLinked l cid])

def linksRemoveLoop (cid : Nat) : List Nat → PState → List Ev → HRes
  | [], st, evs => (st, evs, false)
  | l :: rest, st, evs =>
    let st' := updCh st cid (fun c => c.remove_link l)
    match alGet st'.channels l with
    | none => (st', evs, true)
    | some _ => linksRemoveLoop cid rest st' (evs ++ [Ev.channelUnlinked l cid])

def handle_msg_channelstate (st : PState) (m : ChannelStateMsg) : HRes :=
  let create : HRes :=
    match alGet st.channels m.channel_id with
    | some _ => (st, [], false)
    | none =>
      if m.links ≠ [] then
        (st, [], true)  -- KeyError at line 387: the new id is not in channels
      else
        let c : Channel := ⟨m.channel_id, m.name, m.parent, m.position, [], []⟩
        ({ st with channels := alSet st.channels m.channel_id c }, [], false)
  if create.2.2 then create
  else
    let afterAdd := linksAddLoop m.channel_id m.links_add create.1 create.2.1
    if afterAdd.2.2 then afterAdd
    else linksRemoveLoop m.channel_id m.links_remove afterAdd.1 afterAdd.2.1

/-- A stage of the known-session delta: state so far, the in-scope `user`
value, notifications published so far, raised flag. -/
abbrev Stage := PState × User × List Ev × Bool

/-- The channel-move block (lines 473-486): `actor` lookup and the two channel
lookups happen in log/`old` computation before the mutations; the mutation is
remove-from-old, add-to-new, update the user's channel reference, and the
`UserMoved` notification carries (session, new channel, old channel). -/
def applyMoveField (m : UserStateMsg) (st : PState) (u0 : User) : Stage :=
  match m.channel_id with
  | none => (st, u0, [], false)
  | some cid =>
    match alGet st.users m.actor with
    | none => (st, u0, [], true)  -- KeyError at line 474
    | some _ =>
      match alGet st.channels cid with
      | none => (st, u0, [], true)  -- KeyError in the log call, line 478
      | some _ =>
        match alGet st.channels u0.channel with
        | none => (st, u0, [], true)  -- KeyError at line 480
        | some _ =>
          let stA := updCh st u0.channel (fun c => c.remove_user m.session)
          let stB := updCh stA cid (fun c => c.add_user m.session)
          let u1 := { u0 with channel := cid }
          let stC := { stB with users := alSet stB.users m.session u1 }
          (stC, u1, [Ev.userMoved m.session cid u0.channel], false)

/-- The mute block (lines 487-497). -/
def applyMuteField (m : UserStateMsg) (st : PState) (u : User)
    (evs : List Ev) : Stage :=
  match m.mute with
  | none => (st, u, evs, false)
  | some v =>
    match alGet st.users m.actor with
    | none => (st, u, evs, true)  -- KeyError at line 488
    | some _ =>
      let u' := { u with mute := v }
      let st' := { st with users := alSet st.users m.session u' }
      (st', u', evs ++ [Ev.userMuteToggle m.session v m.actor], false)

/-- The deafen block (lines 498-510). -/
def applyDeafField (m : UserStateMsg) (st : PState) (u : User)
    (evs : List Ev) : Stage :=
  match m.deaf with
  | none => (st, u, evs, false)
  | some v =>
    match alGet st.users m.actor with
    | none => (st, u, evs, true)  -- KeyError at line 499
    | some _ =>
      let u' := { u with deaf := v }
      let st' := { st with users := alSet st.users m.session u' }
      (st', u', evs ++ [Ev.userDeafToggle m.session v m.actor], false)

/-- The suppression block (lines 511-521); no actor lookup, cannot raise. -/
def applySuppressField (m : UserStateMsg) (st : PState) (u : User)
    (evs : List Ev) : Stage :=
  match m.suppress with
  | none => (st, u, evs, false)
  | some v =>
    let u' := { u with suppress := v }
    let st' := { st with users := alSet st.users m.session u' }
    (st', u', evs ++ [Ev.userSuppressionToggle m.session v], false)

/-- The self-mute block (lines 522-532); no actor lookup, cannot raise. -/
def applySelfMuteField (m : UserStateMsg) (st : PState) (u : User)
    (evs : List Ev) : Stage :=
  match m.self_mute with
  | none => (st, u, evs, false)
  | some v =>
    let u' := { u with self_mute := v }
    let st' := { st with users := alSet st.users m.session u' }
    (st', u', evs ++ [Ev.userSelfMuteToggle m.session v], false)

/-- The self-deafen block (lines 533-543); no actor lookup, cannot raise. -/
def applySelfDeafField (m : UserStateMsg) (st : PState) (u : User)
    (evs : List Ev) : Stage :=
  match m.self_deaf with
  | none => (st, u, evs, false)
  | some v =>
    let u' := { u with self_deaf := v }
    let st' := { st with users := alSet st.users m.session u' }
    (st', u', evs ++ [Ev.userSelfDeafToggle m.session v], false)

/-- The priority-speaker block (lines 544-557). -/
def applyPriorityField (m : UserStateMsg) (st : PState) (u : User)
    (evs : List Ev) : Stage :=
  match m.priority_speaker with
  | none => (st, u, evs, false)
  | some v =>
    match alGet st.users m.actor with
    | none => (st, u, evs, true)  -- KeyError at line 545
    | some _ =>
      let u' := { u with priority_speaker := v }
      let st' := { st with users := alSet st.users m.session u' }
      (st', u', evs ++ [Ev.userPrioritySpeakerToggle m.session v m.actor], false)

/-- The recording block (lines 558-566): the state is mutated and a
`UserRecordingToggle` event object is constructed, but `run_callback` is
never invoked on it, so no notification is published. -/
def applyRecordingField (m : UserStateMsg) (st : PState) (u : User)
    (evs : List Ev) : PState × List Ev :=
  match m.recording with
  | none => (st, evs)
  | some v =>
    let u' := { u with recording := v }
    let st' := { st with users := alSet st.users m.session u' }
    (st', evs)

/-- Embedding of `Protocol.handle_msg_userstate` (lines 420-566).  First sight of a session
with a name creates the `User` and adds it to the channel's member set; the
self-identity is recorded when the name matches the configured username
(`join_channel` only sends an outbound packet, and the `try` at lines 447-465
swallows configuration errors).  For a known session, exactly the fields
present in the delta are applied, in source order via the stage functions
above; each field's `actor` lookup (where the source performs one) happens
before that field's mutation, so a raise leaves the earlier fields applied
and the earlier notifications published. -/
def handle_msg_userstate (st : PState) (m : UserStateMsg) : HRes :=
  if m.name ≠ "" ∧ alGet st.users m.session = none then
    match alGet st.channels (m.channel_id.getD 0) with
    | none => (st, [], true)  -- KeyError building the User (line 427)
    | some ch =>
      let u : User :=
        ⟨m.session, m.name, m.channel_id.getD 0, (m.mute.getD false),
         (m.deaf.getD false), (m.suppress.getD false),
         (m.self_mute.getD false), (m.self_deaf.getD false),
         (m.priority_speaker.getD false), (m.recording.getD false), true⟩
      let st1 := { st with users := alSet st.users m.session u }
      let chans2 := alSet st1.channels (m.channel_id.getD 0) (ch.add_user m.session)
      let st2 := { st1 with channels := chans2 }
      if m.name = st.username then
        ({ st2 with ourselves := some m.session }, [], false)
      else
        (st2, [Ev.userJoined m.session], false)
  else
    match alGet st.users m.session with
    | none => (st, [], true)  -- KeyError at line 472
    | some u0 =>
      let r1 := applyMoveField m st u0
      if r1.2.2.2 then (r1.1, r1.2.2.1, true) else
      let r2 := applyMuteField m r1.1 r1.2.1 r1.2.2.1
      if r2.2.2.2 then (r2.1, r2.2.2.1, true) else
      let r3 := applyDeafField m r2.1 r2.2.1 r2.2.2.1
      if r3.2.2.2 then (r3.1, r3.2.2.1, true) else
      let r4 := applySuppressField m r3.1 r3.2.1 r3.2.2.1
      let r5 := applySelfMuteField m r4.1 r4.2.1 r4.2.2.1
      let r6 := applySelfDeafField m r5.1 r5.2.1 r5.2.2.1
      let r7 := applyPriorityField m r6.1 r6.2.1 r6.2.2.1
      if r7.2.2.2 then (r7.1, r7.2.2.1, true) else
      let r8 := applyRecordingField m r7.1 r7.2.1 r7.2.2.1
      (r8.1, r8.2, false)

/-- The `UserRemove` branch of `recvProtobuf` (lines 325-349). -/
def handle_msg_userremove (st : PState) (m : UserRemoveMsg) : HRes :=
  let step : PState × Option Nat :=
    match alGet st.users m.session with
    | some u =>
      let users1 := alSet st.users m.session { u with is_tracked := false }
      let st1 := { st with users := users1 }
      let st2 := updCh st1 u.channel (fun c => c.remove_user m.session)
      let st3 := { st2 with users := alErase st2.users m.session }
      (st3, some m.session)
    | none => (st, none)
  let st' := step.1
  let evs :=
    (if (alGet st'.users m.actor).isSome then [Ev.userRemove m.session m.actor]
     else []) ++ [Ev.userDisconnected step.2]
  (st', evs, false)

/-- The dispatch of `recvProtobuf` restricted to the state-tracking message
kinds (the `Reject` branch is lines 237-243: lose the connection, clear
`pinging`). -/
def recvStateMsg (st : PState) (m : Msg) : HRes :=
  match m with
  | .channelState cm => handle_msg_channelstate st cm
  | .userState um => handle_msg_userstate st um
  | .userRemove rm => handle_msg_userremove st rm
  | .reject => ({ st with lostConnection := true, pinging := false }, [], false)

/-- The state after a message (exceptions are caught by the caller, which
keeps the partially-mutated state). -/
def applyMsg (st : PState) (m : Msg) : PState := (recvStateMsg st m).1

def applyMsgs (st : PState) (msgs : List Msg) : PState := msgs.foldl applyMsg st

/-- Embedding of `Protocol.init_ping` and `Protocol.ping_handler` (lines 361-374): a timer
tick sends a ping and reschedules only while `self.pinging` is truthy. -/
def ping_handler (st : PState) : PState :=
  if ¬ st.pinging then st
  else { st with pingsSent := st.pingsSent + 1,
                 pingsScheduled := st.pingsScheduled + 1 }

/-- Either an incoming state message or a keepalive timer tick. -/
inductive Action
  | recv (m : Msg)
  | tick
deriving DecidableEq, Repr

def applyAction (st : PState) : Action → PState
  | .recv m => applyMsg st m
  | .tick => ping_handler st

def applyActions (st : PState) (acts : List Action) : PState :=
  acts.foldl applyAction st

/-! ## C2: mutual consistency of the presence graph -/

/-- Mutual consistency: every tracked user's current-channel reference is a
channel whose member set contains the user, and every member of any channel's
member set is a tracked user whose current-channel reference is that
channel. -/
def Inv (st : PState) : Prop :=
  (∀ s u, alGet st.users s = some u →
    ∃ c, alGet st.channels u.channel = some c ∧ s ∈ c.users) ∧
  (∀ cid c, alGet st.channels cid = some c →
    ∀ s, s ∈ c.users → ∃ u, alGet st.users s = some u ∧ u.channel = cid)

theorem mem_add_user (c : Channel) (s x : Nat) :
    x ∈ (c.add_user s).users ↔ x = s ∨ x ∈ c.users := by
  simp only [Channel.add_user]
  by_cases h : c.users.contains s
  · have hs : s ∈ c.users := List.elem_iff.1 h
    simp only [h, if_true]
    constructor
    · exact Or.inr
    · rintro (rfl | hx)
      · exact hs
      · exact hx
  · have hs : s ∉ c.users := fun hm => h (List.elem_iff.2 hm)
    simp [h, hs, List.mem_cons]

theorem mem_remove_user (c : Channel) (s x : Nat) :
    x ∈ (c.remove_user s).users ↔ x ∈ c.users ∧ x ≠ s := by
  simp [Channel.remove_user, List.mem_filter]

theorem users_add_link (c : Channel) (l : Nat) : (c.add_link l).users = c.users := rfl

theorem users_remove_link (c : Channel) (l : Nat) :
    (c.remove_link l).users = c.users := rfl

/-- Updating a channel with a member-set-preserving function keeps the
invariant (used for the link mutations). -/
theorem Inv_updCh_links (st : PState) (cid : Nat) (f : Channel → Channel)
    (hf : ∀ c, (f c).users = c.users) (hInv : Inv st) :
    Inv (updCh st cid f) := by
  unfold updCh
  cases hc : alGet st.channels cid with
  | none => exact hInv
  | some c =>
    obtain ⟨h1, h2⟩ := hInv
    constructor
    · intro s u hu
      obtain ⟨c₀, hc₀, hs⟩ := h1 s u hu
      by_cases hch : u.channel = cid
      · refine ⟨f c, ?_, ?_⟩
        · simp [alGet_alSet, hch]
        · rw [hf]
          rw [hch] at hc₀
          rw [hc₀] at hc
          injection hc with hc
          exact hc ▸ hs
      · exact ⟨c₀, by simp [alGet_alSet, hch]; exact hc₀, hs⟩
    · intro cid' c' hc' s hs
      simp only [alGet_alSet] at hc'
      by_cases hch : cid' = cid
      · rw [if_pos hch] at hc'
        injection hc' with hc'
        subst hc'
        rw [hf] at hs
        exact hch ▸ h2 cid c hc s hs
      · rw [if_neg hch] at hc'
        exact h2 cid' c' hc' s hs

/-- Replacing a user's entry with one that has the same current channel keeps
the invariant (used for the flag toggles and `is_tracked`). -/
theorem Inv_flagUpdate (st : PState) (s : Nat) (u u' : User)
    (hu : alGet st.users s = some u) (hch : u'.channel = u.channel)
    (hInv : Inv st) : Inv { st with users := alSet st.users s u' } := by
  obtain ⟨h1, h2⟩ := hInv
  constructor
  · intro s₂ u₂ hu₂
    simp only [alGet_alSet] at hu₂
    by_cases hs₂ : s₂ = s
    · rw [if_pos hs₂] at hu₂
      injection hu₂ with hu₂
      subst hu₂
      obtain ⟨c, hc, hmem⟩ := h1 s u hu
      exact ⟨c, by rw [hch]; exact hc, hs₂ ▸ hmem⟩
    · rw [if_neg hs₂] at hu₂
      exact h1 s₂ u₂ hu₂
  · intro cid c hc s₂ hmem
    obtain ⟨u₂, hu₂, hch₂⟩ := h2 cid c hc s₂ hmem
    by_cases hs₂ : s₂ = s
    · refine ⟨u', by simp [alGet_alSet, hs₂], ?_⟩
      rw [hch]
      subst hs₂
      rw [hu] at hu₂
      injection hu₂ with hu₂
      rw [hu₂]
      exact hch₂
    · exact ⟨u₂, by simp [alGet_alSet, hs₂]; exact hu₂, hch₂⟩

theorem updCh_users (st : PState) (cid : Nat) (f : Channel → Channel) :
    (updCh st cid f).users = st.users := by
  unfold updCh
  cases alGet st.channels cid <;> rfl

theorem alGet_updCh_of_some (st : PState) (cid : Nat) (f : Channel → Channel)
    (c : Channel) (hc : alGet st.channels cid = some c) (k : Nat) :
    alGet (updCh st cid f).channels k =
      if k = cid then some (f c) else alGet st.channels k := by
  unfold updCh
  rw [hc]
  exact alGet_alSet st.channels cid k (f c)

theorem alGet_alSet_self (l : List (Nat × α)) (k : Nat) (v : α) :
    alGet (alSet l k v) k = some v := by
  rw [alGet_alSet, if_pos rfl]

/-- The channel-move mutation (remove from the old channel's member set, add
to the new one, update the user's channel reference) keeps the invariant. -/
theorem Inv_move (st : PState) (s cid : Nat) (u0 : User) (cT : Channel)
    (hu : alGet st.users s = some u0)
    (hcT : alGet st.channels cid = some cT)
    (hInv : Inv st) :
    Inv { updCh (updCh st u0.channel (fun c => c.remove_user s)) cid
            (fun c => c.add_user s) with
          users := alSet (updCh (updCh st u0.channel
              (fun c => c.remove_user s)) cid
            (fun c => c.add_user s)).users s { u0 with channel := cid } } := by
  obtain ⟨h1, h2⟩ := hInv
  obtain ⟨cO, hcO, hsO⟩ := h1 s u0 hu
  set X : Channel := if cid = u0.channel then cO.remove_user s else cT with hX
  have hstA : ∀ k, alGet (updCh st u0.channel
      (fun c => c.remove_user s)).channels k =
      if k = u0.channel then some (cO.remove_user s)
      else alGet st.channels k :=
    alGet_updCh_of_some st u0.channel _ cO hcO
  have hAcid : alGet (updCh st u0.channel
      (fun c => c.remove_user s)).channels cid = some X := by
    rw [hstA cid, hX]
    by_cases h : cid = u0.channel
    · rw [if_pos h, if_pos h]
    · rw [if_neg h, if_neg h]
      exact hcT
  have hstB : ∀ k, alGet (updCh (updCh st u0.channel
      (fun c => c.remove_user s)) cid (fun c => c.add_user s)).channels k =
      if k = cid then some (X.add_user s)
      else if k = u0.channel then some (cO.remove_user s)
      else alGet st.channels k := by
    intro k
    rw [alGet_updCh_of_some _ cid _ X hAcid k]
    by_cases h : k = cid
    · rw [if_pos h, if_pos h]
    · rw [if_neg h, if_neg h, hstA k]
  have husers : (updCh (updCh st u0.channel (fun c => c.remove_user s)) cid
      (fun c => c.add_user s)).users = st.users := by
    rw [updCh_users, updCh_users]
  constructor
  · intro s₂ u₂ hu₂
    simp only [husers, alGet_alSet] at hu₂
    by_cases hs₂ : s₂ = s
    · rw [if_pos hs₂] at hu₂
      injection hu₂ with hu₂
      subst hu₂
      refine ⟨X.add_user s, ?_, ?_⟩
      · show alGet _ cid = _
        rw [hstB cid, if_pos rfl]
      · rw [mem_add_user]
        exact Or.inl hs₂
    · rw [if_neg hs₂] at hu₂
      obtain ⟨c₀, hc₀, hmem⟩ := h1 s₂ u₂ hu₂
      by_cases hA : u₂.channel = cid
      · refine ⟨X.add_user s, by rw [hstB, if_pos hA], ?_⟩
        rw [mem_add_user]
        refine Or.inr ?_
        rw [hX]
        by_cases hB : cid = u0.channel
        · rw [if_pos hB]
          rw [mem_remove_user]
          have : c₀ = cO := by
            rw [hA, hB] at hc₀
            rw [hc₀] at hcO
            injection hcO
          exact ⟨this ▸ hmem, hs₂⟩
        · rw [if_neg hB]
          have : c₀ = cT := by
            rw [hA] at hc₀
            rw [hc₀] at hcT
            injection hcT
          exact this ▸ hmem
      · by_cases hB : u₂.channel = u0.channel
        · refine ⟨cO.remove_user s, by rw [hstB, if_neg hA, if_pos hB], ?_⟩
          rw [mem_remove_user]
          have : c₀ = cO := by
            rw [hB] at hc₀
            rw [hc₀] at hcO
            injection hcO
          exact ⟨this ▸ hmem, hs₂⟩
        · exact ⟨c₀, by rw [hstB, if_neg hA, if_neg hB]; exact hc₀, hmem⟩
  · intro cid' c' hc' s₂ hmem
    simp only [hstB] at hc'
    simp only [husers]
    by_cases hA : cid' = cid
    · rw [if_pos hA] at hc'
      injection hc' with hc'
      subst hc'
      rw [mem_add_user] at hmem
      rcases hmem with rfl | hmem
      · exact ⟨{ u0 with channel := cid }, alGet_alSet_self _ _ _, hA ▸ rfl⟩
      · rw [hX] at hmem
        by_cases hB : cid = u0.channel
        · rw [if_pos hB] at hmem
          rw [mem_remove_user] at hmem
          obtain ⟨u₂, hu₂, hch₂⟩ := h2 u0.channel cO hcO s₂ hmem.1
          refine ⟨u₂, ?_, by rw [hch₂, ← hB, hA]⟩
          rw [alGet_alSet, if_neg hmem.2]
          exact hu₂
        · rw [if_neg hB] at hmem
          obtain ⟨u₂, hu₂, hch₂⟩ := h2 cid cT hcT s₂ hmem
          have hs₂ : s₂ ≠ s := by
            intro h
            subst h
            rw [hu₂] at hu
            injection hu with hu
            rw [← hu] at hB
            exact hB hch₂.symm
          refine ⟨u₂, ?_, by rw [hch₂, hA]⟩
          rw [alGet_alSet, if_neg hs₂]
          exact hu₂
    · rw [if_neg hA] at hc'
      by_cases hB : cid' = u0.channel
      · rw [if_pos hB] at hc'
        injection hc' with hc'
        subst hc'
        rw [mem_remove_user] at hmem
        obtain ⟨u₂, hu₂, hch₂⟩ := h2 u0.channel cO hcO s₂ hmem.1
        refine ⟨u₂, ?_, by rw [hch₂, hB]⟩
        rw [alGet_alSet, if_neg hmem.2]
        exact hu₂
      · rw [if_neg hB] at hc'
        obtain ⟨u₂, hu₂, hch₂⟩ := h2 cid' c' hc' s₂ hmem
        have hs₂ : s₂ ≠ s := by
          intro h
          subst h
          rw [hu₂] at hu
          injection hu with hu
          rw [← hu] at hB
          exact hB hch₂.symm
        refine ⟨u₂, ?_, hch₂⟩
        rw [alGet_alSet, if_neg hs₂]
        exact hu₂

/-- Adding a newly-seen user to its channel's member set keeps the
invariant. -/
theorem Inv_addUser (st : PState) (s cid : Nat) (ch : Channel) (u : User)
    (hfresh : alGet st.users s = none) (hch : alGet st.channels cid = some ch)
    (huch : u.channel = cid) (hInv : Inv st) :
    Inv { st with users := alSet st.users s u,
                  channels := alSet st.channels cid (ch.add_user s) } := by
  obtain ⟨h1, h2⟩ := hInv
  constructor
  · intro s₂ u₂ hu₂
    simp only [alGet_alSet] at hu₂
    by_cases hs₂ : s₂ = s
    · rw [if_pos hs₂] at hu₂
      injection hu₂ with hu₂
      subst hu₂
      refine ⟨ch.add_user s, ?_, ?_⟩
      · show alGet (alSet st.channels cid (ch.add_user s)) u.channel =
          some (ch.add_user s)
        rw [huch, alGet_alSet, if_pos rfl]
      · rw [mem_add_user]
        exact Or.inl hs₂
    · rw [if_neg hs₂] at hu₂
      obtain ⟨c₀, hc₀, hmem⟩ := h1 s₂ u₂ hu₂
      by_cases hA : u₂.channel = cid
      · refine ⟨ch.add_user s, by rw [alGet_alSet, if_pos hA], ?_⟩
        rw [mem_add_user]
        refine Or.inr ?_
        have : c₀ = ch := by
          rw [hA] at hc₀
          rw [hc₀] at hch
          injection hch
        exact this ▸ hmem
      · exact ⟨c₀, by rw [alGet_alSet, if_neg hA]; exact hc₀, hmem⟩
  · intro cid' c' hc' s₂ hmem
    simp only [alGet_alSet] at hc'
    by_cases hA : cid' = cid
    · rw [if_pos hA] at hc'
      injection hc' with hc'
      subst hc'
      rw [mem_add_user] at hmem
      rcases hmem with rfl | hmem
      · exact ⟨u, alGet_alSet_self _ _ _, by rw [huch, hA]⟩
      · obtain ⟨u₂, hu₂, hch₂⟩ := h2 cid ch hch s₂ hmem
        have hs₂ : s₂ ≠ s := by
          intro h
          subst h
          rw [hu₂] at hfresh
          cases hfresh
        refine ⟨u₂, ?_, by rw [hch₂, hA]⟩
        rw [alGet_alSet, if_neg hs₂]
        exact hu₂
    · rw [if_neg hA] at hc'
      obtain ⟨u₂, hu₂, hch₂⟩ := h2 cid' c' hc' s₂ hmem
      have hs₂ : s₂ ≠ s := by
        intro h
        subst h
        rw [hu₂] at hfresh
        cases hfresh
      refine ⟨u₂, ?_, hch₂⟩
      rw [alGet_alSet, if_neg hs₂]
      exact hu₂

/-- Removing a user (mark untracked, detach from its channel's member set,
delete from the session index) keeps the invariant. -/
theorem Inv_remove (st : PState) (s : Nat) (u : User)
    (hu : alGet st.users s = some u) (hInv : Inv st) :
    Inv { updCh { st with users := alSet st.users s ({ u with is_tracked := false }) }
            u.channel (fun c => c.remove_user s) with
          users := alErase (updCh { st with
              users := alSet st.users s ({ u with is_tracked := false }) }
            u.channel (fun c => c.remove_user s)).users s } := by
  obtain ⟨h1, h2⟩ := hInv
  obtain ⟨cO, hcO, hsO⟩ := h1 s u hu
  have hst1ch : ({ st with users := alSet st.users s ({ u with is_tracked := false }) } : PState).channels = st.channels := rfl
  have hchans : ∀ k, alGet (updCh { st with
      users := alSet st.users s ({ u with is_tracked := false }) }
      u.channel (fun c => c.remove_user s)).channels k =
      if k = u.channel then some (cO.remove_user s) else alGet st.channels k := by
    intro k
    exact alGet_updCh_of_some _ u.channel _ cO (by rw [hst1ch]; exact hcO) k
  have husers : ∀ k, alGet (alErase (updCh { st with
      users := alSet st.users s ({ u with is_tracked := false }) }
      u.channel (fun c => c.remove_user s)).users s) k =
      if k = s then none else alGet st.users k := by
    intro k
    rw [updCh_users]
    show alGet (alErase (alSet st.users s _) s) k = _
    rw [alGet_alErase]
    by_cases h : k = s
    · rw [if_pos h, if_pos h]
    · rw [if_neg h, if_neg h, alGet_alSet, if_neg h]
  constructor
  · intro s₂ u₂ hu₂
    rw [husers s₂] at hu₂
    by_cases hs₂ : s₂ = s
    · rw [if_pos hs₂] at hu₂
      cases hu₂
    · rw [if_neg hs₂] at hu₂
      obtain ⟨c₀, hc₀, hmem⟩ := h1 s₂ u₂ hu₂
      by_cases hA : u₂.channel = u.channel
      · refine ⟨cO.remove_user s, by rw [hchans, if_pos hA], ?_⟩
        rw [mem_remove_user]
        have : c₀ = cO := by
          rw [hA] at hc₀
          rw [hc₀] at hcO
          injection hcO
        exact ⟨this ▸ hmem, hs₂⟩
      · exact ⟨c₀, by rw [hchans, if_neg hA]; exact hc₀, hmem⟩
  · intro cid' c' hc' s₂ hmem
    rw [hchans cid'] at hc'
    by_cases hA : cid' = u.channel
    · rw [if_pos hA] at hc'
      injection hc' with hc'
      subst hc'
      rw [mem_remove_user] at hmem
      obtain ⟨u₂, hu₂, hch₂⟩ := h2 u.channel cO hcO s₂ hmem.1
      refine ⟨u₂, ?_, by rw [hch₂, hA]⟩
      rw [husers, if_neg hmem.2]
      exact hu₂
    · rw [if_neg hA] at hc'
      obtain ⟨u₂, hu₂, hch₂⟩ := h2 cid' c' hc' s₂ hmem
      have hs₂ : s₂ ≠ s := by
        intro h
        subst h
        rw [hu₂] at hu
        injection hu with hu
        rw [← hu] at hA
        exact hA hch₂.symm
      refine ⟨u₂, ?_, hch₂⟩
      rw [husers, if_neg hs₂]
      exact hu₂

/-- Creating a fresh channel with an empty member set keeps the invariant. -/
theorem Inv_newChannel (st : PState) (cid : Nat) (c : Channel)
    (hfresh : alGet st.channels cid = none) (hempty : c.users = [])
    (hInv : Inv st) : Inv { st with channels := alSet st.channels cid c } := by
  obtain ⟨h1, h2⟩ := hInv
  constructor
  · intro s u hu
    obtain ⟨c₀, hc₀, hs⟩ := h1 s u hu
    by_cases hch : u.channel = cid
    · rw [hch] at hc₀
      rw [hc₀] at hfresh
      exact absurd hfresh (by simp)
    · exact ⟨c₀, by simp [alGet_alSet, hch]; exact hc₀, hs⟩
  · intro cid' c' hc' s hs
    simp only [alGet_alSet] at hc'
    by_cases hch : cid' = cid
    · rw [if_pos hch] at hc'
      injection hc' with hc'
      subst hc'
      rw [hempty] at hs
      exact absurd hs (by simp)
    · rw [if_neg hch] at hc'
      exact h2 cid' c' hc' s hs

/-! ### Invariant preservation by each handler stage -/

theorem applyMoveField_inv (m : UserStateMsg) (st : PState) (u0 : User)
    (hInv : Inv st) (hu : alGet st.users m.session = some u0) :
    Inv (applyMoveField m st u0).1 ∧
    alGet (applyMoveField m st u0).1.users m.session =
      some (applyMoveField m st u0).2.1 := by
  unfold applyMoveField
  cases m.channel_id with
  | none => exact ⟨hInv, hu⟩
  | some cid =>
    dsimp only
    cases alGet st.users m.actor with
    | none => exact ⟨hInv, hu⟩
    | some a =>
      dsimp only
      cases hcT : alGet st.channels cid with
      | none => exact ⟨hInv, hu⟩
      | some cT =>
        dsimp only
        cases alGet st.channels u0.channel with
        | none => exact ⟨hInv, hu⟩
        | some cO =>
          exact ⟨Inv_move st m.session cid u0 cT hu hcT hInv,
            alGet_alSet_self _ _ _⟩

theorem applyMuteField_inv (m : UserStateMsg) (st : PState) (u : User)
    (evs : List Ev) (hInv : Inv st) (hu : alGet st.users m.session = some u) :
    Inv (applyMuteField m st u evs).1 ∧
    alGet (applyMuteField m st u evs).1.users m.session =
      some (applyMuteField m st u evs).2.1 := by
  unfold applyMuteField
  cases m.mute with
  | none => exact ⟨hInv, hu⟩
  | some v =>
    cases alGet st.users m.actor with
    | none => exact ⟨hInv, hu⟩
    | some a =>
      exact ⟨Inv_flagUpdate st m.session u _ hu rfl hInv,
        alGet_alSet_self _ _ _⟩

theorem applyDeafField_inv (m : UserStateMsg) (st : PState) (u : User)
    (evs : List Ev) (hInv : Inv st) (hu : alGet st.users m.session = some u) :
    Inv (applyDeafField m st u evs).1 ∧
    alGet (applyDeafField m st u evs).1.users m.session =
      some (applyDeafField m st u evs).2.1 := by
  unfold applyDeafField
  cases m.deaf with
  | none => exact ⟨hInv, hu⟩
  | some v =>
    cases alGet st.users m.actor with
    | none => exact ⟨hInv, hu⟩
    | some a =>
      exact ⟨Inv_flagUpdate st m.session u _ hu rfl hInv,
        alGet_alSet_self _ _ _⟩

theorem applySuppressField_inv (m : UserStateMsg) (st : PState) (u : User)
    (evs : List Ev) (hInv : Inv st) (hu : alGet st.users m.session = some u) :
    Inv (applySuppressField m st u evs).1 ∧
    alGet (applySuppressField m st u evs).1.users m.session =
      some (applySuppressField m st u evs).2.1 := by
  unfold applySuppressField
  cases m.suppress with
  | none => exact ⟨hInv, hu⟩
  | some v =>
    exact ⟨Inv_flagUpdate st m.session u _ hu rfl hInv,
      alGet_alSet_self _ _ _⟩

theorem applySelfMuteField_inv (m : UserStateMsg) (st : PState) (u : User)
    (evs : List Ev) (hInv : Inv st) (hu : alGet st.users m.session = some u) :
    Inv (applySelfMuteField m st u evs).1 ∧
    alGet (applySelfMuteField m st u evs).1.users m.session =
      some (applySelfMuteField m st u evs).2.1 := by
  unfold applySelfMuteField
  cases m.self_mute with
  | none => exact ⟨hInv, hu⟩
  | some v =>
    exact ⟨Inv_flagUpdate st m.session u _ hu rfl hInv,
      alGet_alSet_self _ _ _⟩

theorem applySelfDeafField_inv (m : UserStateMsg) (st : PState) (u : User)
    (evs : List Ev) (hInv : Inv st) (hu : alGet st.users m.session = some u) :
    Inv (applySelfDeafField m st u evs).1 ∧
    alGet (applySelfDeafField m st u evs).1.users m.session =
      some (applySelfDeafField m st u evs).2.1 := by
  unfold applySelfDeafField
  cases m.self_deaf with
  | none => exact ⟨hInv, hu⟩
  | some v =>
    exact ⟨Inv_flagUpdate st m.session u _ hu rfl hInv,
      alGet_alSet_self _ _ _⟩

theorem applyPriorityField_inv (m : UserStateMsg) (st : PState) (u : User)
    (evs : List Ev) (hInv : Inv st) (hu : alGet st.users m.session = some u) :
    Inv (applyPriorityField m st u evs).1 ∧
    alGet (applyPriorityField m st u evs).1.users m.session =
      some (applyPriorityField m st u evs).2.1 := by
  unfold applyPriorityField
  cases m.priority_speaker with
  | none => exact ⟨hInv, hu⟩
  | some v =>
    cases alGet st.users m.actor with
    | none => exact ⟨hInv, hu⟩
    | some a =>
      exact ⟨Inv_flagUpdate st m.session u _ hu rfl hInv,
        alGet_alSet_self _ _ _⟩

theorem applyRecordingField_inv (m : UserStateMsg) (st : PState) (u : User)
    (evs : List Ev) (hInv : Inv st) (hu : alGet st.users m.session = some u) :
    Inv (applyRecordingField m st u evs).1 := by
  unfold applyRecordingField
  cases m.recording with
  | none => exact hInv
  | some v => exact Inv_flagUpdate st m.session u _ hu rfl hInv

theorem Inv_handle_msg_userstate (st : PState) (m : UserStateMsg)
    (hInv : Inv st) : Inv (handle_msg_userstate st m).1 := by
  unfold handle_msg_userstate
  by_cases hcond : m.name ≠ "" ∧ alGet st.users m.session = none
  · rw [if_pos hcond]
    cases hch : alGet st.channels (m.channel_id.getD 0) with
    | none => exact hInv
    | some ch =>
      dsimp only
      have h2 := Inv_addUser st m.session (m.channel_id.getD 0) ch
        ⟨m.session, m.name, m.channel_id.getD 0, (m.mute.getD false),
         (m.deaf.getD false), (m.suppress.getD false),
         (m.self_mute.getD false), (m.self_deaf.getD false),
         (m.priority_speaker.getD false), (m.recording.getD false), true⟩
        hcond.2 hch rfl hInv
      by_cases hn : m.name = st.username
      · rw [if_pos hn]
        exact h2
      · rw [if_neg hn]
        exact h2
  · rw [if_neg hcond]
    cases hu : alGet st.users m.session with
    | none => exact hInv
    | some u0 =>
      dsimp only
      obtain ⟨i1, l1⟩ := applyMoveField_inv m st u0 hInv hu
      generalize hg1 : applyMoveField m st u0 = r1 at i1 l1 ⊢
      obtain ⟨st1, u1, evs1, b1⟩ := r1
      dsimp only at i1 l1 ⊢
      cases b1 with
      | true => rw [if_pos rfl]; exact i1
      | false =>
        rw [if_neg Bool.false_ne_true]
        obtain ⟨i2, l2⟩ := applyMuteField_inv m st1 u1 evs1 i1 l1
        generalize hg2 : applyMuteField m st1 u1 evs1 = r2 at i2 l2 ⊢
        obtain ⟨st2, u2, evs2, b2⟩ := r2
        dsimp only at i2 l2 ⊢
        cases b2 with
        | true => rw [if_pos rfl]; exact i2
        | false =>
          rw [if_neg Bool.false_ne_true]
          obtain ⟨i3, l3⟩ := applyDeafField_inv m st2 u2 evs2 i2 l2
          generalize hg3 : applyDeafField m st2 u2 evs2 = r3 at i3 l3 ⊢
          obtain ⟨st3, u3, evs3, b3⟩ := r3
          dsimp only at i3 l3 ⊢
          cases b3 with
          | true => rw [if_pos rfl]; exact i3
          | false =>
            rw [if_neg Bool.false_ne_true]
            obtain ⟨i4, l4⟩ := applySuppressField_inv m st3 u3 evs3 i3 l3
            generalize hg4 : applySuppressField m st3 u3 evs3 = r4 at i4 l4 ⊢
            obtain ⟨st4, u4, evs4, b4⟩ := r4
            dsimp only at i4 l4 ⊢
            obtain ⟨i5, l5⟩ := applySelfMuteField_inv m st4 u4 evs4 i4 l4
            generalize hg5 : applySelfMuteField m st4 u4 evs4 = r5 at i5 l5 ⊢
            obtain ⟨st5, u5, evs5, b5⟩ := r5
            dsimp only at i5 l5 ⊢
            obtain ⟨i6, l6⟩ := applySelfDeafField_inv m st5 u5 evs5 i5 l5
            generalize hg6 : applySelfDeafField m st5 u5 evs5 = r6 at i6 l6 ⊢
            obtain ⟨st6, u6, evs6, b6⟩ := r6
            dsimp only at i6 l6 ⊢
            obtain ⟨i7, l7⟩ := applyPriorityField_inv m st6 u6 evs6 i6 l6
            generalize hg7 : applyPriorityField m st6 u6 evs6 = r7 at i7 l7 ⊢
            obtain ⟨st7, u7, evs7, b7⟩ := r7
            dsimp only at i7 l7 ⊢
            cases b7 with
            | true => rw [if_pos rfl]; exact i7
            | false =>
              rw [if_neg Bool.false_ne_true]
              exact applyRecordingField_inv m st7 u7 evs7 i7 l7

theorem Inv_linksAddLoop (cid : Nat) :
    ∀ (ls : List Nat) (st : PState) (evs : List Ev), Inv st →
    Inv (linksAddLoop cid ls st evs).1 := by
  intro ls
  induction ls with
  | nil => intro st evs h; exact h
  | cons l rest ih =>
    intro st evs h
    unfold linksAddLoop
    dsimp only
    have h' : Inv (updCh st cid (fun c => c.add_link l)) :=
      Inv_updCh_links st cid _ (fun c => rfl) h
    cases alGet (updCh st cid (fun c => c.add_link l)).channels l with
    | none => exact h'
    | some _ => exact ih _ _ h'

theorem Inv_linksRemoveLoop (cid : Nat) :
    ∀ (ls : List Nat) (st : PState) (evs : List Ev), Inv st →
    Inv (linksRemoveLoop cid ls st evs).1 := by
  intro ls
  induction ls with
  | nil => intro st evs h; exact h
  | cons l rest ih =>
    intro st evs h
    unfold linksRemoveLoop
    dsimp only
    have h' : Inv (updCh st cid (fun c => c.remove_link l)) :=
      Inv_updCh_links st cid _ (fun c => rfl) h
    cases alGet (updCh st cid (fun c => c.remove_link l)).channels l with
    | none => exact h'
    | some _ => exact ih _ _ h'

/-- The link-add phase followed by the link-remove phase, as chained in
`handle_msg_channelstate`, keeps the invariant. -/
theorem Inv_linkPhases (cid : Nat) (la lr : List Nat) (st : PState)
    (evs : List Ev) (h : Inv st) :
    Inv (if (linksAddLoop cid la st evs).2.2 then linksAddLoop cid la st evs
         else linksRemoveLoop cid lr (linksAddLoop cid la st evs).1
           (linksAddLoop cid la st evs).2.1).1 := by
  by_cases hA : (linksAddLoop cid la st evs).2.2 = true
  · rw [if_pos hA]
    exact Inv_linksAddLoop cid la st evs h
  · rw [if_neg hA]
    exact Inv_linksRemoveLoop cid lr _ _ (Inv_linksAddLoop cid la st evs h)

theorem Inv_handle_msg_channelstate (st : PState) (m : ChannelStateMsg)
    (hInv : Inv st) : Inv (handle_msg_channelstate st m).1 := by
  unfold handle_msg_channelstate
  cases hch : alGet st.channels m.channel_id with
  | some c =>
    dsimp only
    rw [if_neg Bool.false_ne_true]
    exact Inv_linkPhases m.channel_id m.links_add m.links_remove st [] hInv
  | none =>
    dsimp only
    by_cases hl : m.links ≠ []
    · rw [if_pos hl, if_pos rfl]
      exact hInv
    · rw [if_neg hl]
      dsimp only
      rw [if_neg Bool.false_ne_true]
      exact Inv_linkPhases m.channel_id m.links_add m.links_remove _ []
        (Inv_newChannel st m.channel_id
          ⟨m.channel_id, m.name, m.parent, m.position, [], []⟩ hch rfl hInv)

theorem Inv_handle_msg_userremove (st : PState) (m : UserRemoveMsg)
    (hInv : Inv st) : Inv (handle_msg_userremove st m).1 := by
  unfold handle_msg_userremove
  cases hu : alGet st.users m.session with
  | none => exact hInv
  | some u => exact Inv_remove st m.session u hu hInv

theorem Inv_applyMsg (st : PState) (m : Msg) (hInv : Inv st) :
    Inv (applyMsg st m) := by
  cases m with
  | channelState cm => exact Inv_handle_msg_channelstate st cm hInv
  | userState um => exact Inv_handle_msg_userstate st um hInv
  | userRemove rm => exact Inv_handle_msg_userremove st rm hInv
  | reject => exact hInv

theorem Inv_init (username : String) : Inv (initPState username) := by
  constructor
  · intro s u h
    cases h
  · intro cid c h
    cases h

/-- C2. After any sequence of channel-state, user-state and user-remove
messages (processed from the pristine connection state, exceptions caught as
in `dataReceived`), the presence graph is mutually consistent: every tracked
user's current-channel reference denotes a channel whose member set contains
that user's session, and every member of any channel's member set is a
tracked user whose current-channel reference is that channel. -/
theorem presence_graph_consistent (username : String) (msgs : List Msg) :
    Inv (applyMsgs (initPState username) msgs) := by
  have main : ∀ (ms : List Msg) (st : PState), Inv st → Inv (applyMsgs st ms) := by
    intro ms
    induction ms with
    | nil => intro st h; exact h
    | cons mm rest ih =>
      intro st h
      exact ih (applyMsg st mm) (Inv_applyMsg st mm h)
  exact main msgs (initPState username) (Inv_init username)

/-! ## C4: field application of a known-session delta -/

/-- C4 code-bug evidence.  On a delta for the known session 7 carrying
only the `recording` field, the handler applies the state mutation
(`user.recording` becomes true) and raises nothing, but publishes *no*
notification — the source (lines 558-566) builds the `UserRecordingToggle`
event and never calls `run_callback` on it, while every other field branch
publishes; a delta carrying only `self_mute` publishes exactly its one
notification. -/
theorem recording_toggle_not_published :
    ((recvStateMsg
      (applyMsgs (initPState "bot")
        [Msg.channelState ⟨0, "Root", none, 0, [], [], []⟩,
         Msg.userState ⟨7, "Alice", 0, none, none, none, none, none, none,
           none, none⟩])
      (Msg.userState ⟨7, "", 7, none, none, none, none, none, none, none,
        some true⟩)).2.1 = [] ∧
     (recvStateMsg
      (applyMsgs (initPState "bot")
        [Msg.channelState ⟨0, "Root", none, 0, [], [], []⟩,
         Msg.userState ⟨7, "Alice", 0, none, none, none, none, none, none,
           none, none⟩])
      (Msg.userState ⟨7, "", 7, none, none, none, none, none, none, none,
        some true⟩)).2.2 = false ∧
     (alGet (recvStateMsg
      (applyMsgs (initPState "bot")
        [Msg.channelState ⟨0, "Root", none, 0, [], [], []⟩,
         Msg.userState ⟨7, "Alice", 0, none, none, none, none, none, none,
           none, none⟩])
      (Msg.userState ⟨7, "", 7, none, none, none, none, none, none, none,
        some true⟩)).1.users 7).map User.recording = some true) ∧
    (recvStateMsg
      (applyMsgs (initPState "bot")
        [Msg.channelState ⟨0, "Root", none, 0, [], [], []⟩,
         Msg.userState ⟨7, "Alice", 0, none, none, none, none, none, none,
           none, none⟩])
      (Msg.userState ⟨7, "", 7, none, none, none, none, some true, none, none,
        none⟩)).2.1 = [Ev.userSelfMuteToggle 7 true] := by
  decide

/-! ## C8: a Reject permanently disables the keepalive -/

/-- The connection-lifecycle fields the keepalive machinery reads and
writes. -/
def connState (st : PState) : Bool × Bool × Nat × Nat :=
  (st.pinging, st.lostConnection, st.pingsSent, st.pingsScheduled)

theorem connState_updCh (st : PState) (cid : Nat) (f : Channel → Channel) :
    connState (updCh st cid f) = connState st := by
  unfold updCh
  cases alGet st.channels cid <;> rfl

theorem connState_applyMoveField (m : UserStateMsg) (st : PState) (u0 : User) :
    connState (applyMoveField m st u0).1 = connState st := by
  unfold applyMoveField
  cases m.channel_id with
  | none => rfl
  | some cid =>
    dsimp only
    cases alGet st.users m.actor with
    | none => rfl
    | some a =>
      dsimp only
      cases alGet st.channels cid with
      | none => rfl
      | some cT =>
        dsimp only
        cases alGet st.channels u0.channel with
        | none => rfl
        | some cO =>
          exact (connState_updCh _ cid _).trans (connState_updCh st _ _)

theorem connState_applyMuteField (m : UserStateMsg) (st : PState) (u : User)
    (evs : List Ev) : connState (applyMuteField m st u evs).1 = connState st := by
  unfold applyMuteField
  cases m.mute with
  | none => rfl
  | some v =>
    dsimp only
    cases alGet st.users m.actor with
    | none => rfl
    | some a => rfl

theorem connState_applyDeafField (m : UserStateMsg) (st : PState) (u : User)
    (evs : List Ev) : connState (applyDeafField m st u evs).1 = connState st := by
  unfold applyDeafField
  cases m.deaf with
  | none => rfl
  | some v =>
    dsimp only
    cases alGet st.users m.actor with
    | none => rfl
    | some a => rfl

theorem connState_applySuppressField (m : UserStateMsg) (st : PState)
    (u : User) (evs : List Ev) :
    connState (applySuppressField m st u evs).1 = connState st := by
  unfold applySuppressField
  cases m.suppress with
  | none => rfl
  | some v => rfl

theorem connState_applySelfMuteField (m : UserStateMsg) (st : PState)
    (u : User) (evs : List Ev) :
    connState (applySelfMuteField m st u evs).1 = connState st := by
  unfold applySelfMuteField
  cases m.self_mute with
  | none => rfl
  | some v => rfl

theorem connState_applySelfDeafField (m : UserStateMsg) (st : PState)
    (u : User) (evs : List Ev) :
    connState (applySelfDeafField m st u evs).1 = connState st := by
  unfold applySelfDeafField
  cases m.self_deaf with
  | none => rfl
  | some v => rfl

theorem connState_applyPriorityField (m : UserStateMsg) (st : PState)
    (u : User) (evs : List Ev) :
    connState (applyPriorityField m st u evs).1 = connState st := by
  unfold applyPriorityField
  cases m.priority_speaker with
  | none => rfl
  | some v =>
    dsimp only
    cases alGet st.users m.actor with
    | none => rfl
    | some a => rfl

theorem connState_applyRecordingField (m : UserStateMsg) (st : PState)
    (u : User) (evs : List Ev) :
    connState (applyRecordingField m st u evs).1 = connState st := by
  unfold applyRecordingField
  cases m.recording with
  | none => rfl
  | some v => rfl

theorem connState_handle_msg_userstate (st : PState) (m : UserStateMsg) :
    connState (handle_msg_userstate st m).1 = connState st := by
  unfold handle_msg_userstate
  by_cases hcond : m.name ≠ "" ∧ alGet st.users m.session = none
  · rw [if_pos hcond]
    cases alGet st.channels (m.channel_id.getD 0) with
    | none => rfl
    | some ch =>
      dsimp only
      by_cases hn : m.name = st.username
      · rw [if_pos hn]
        rfl
      · rw [if_neg hn]
        rfl
  · rw [if_neg hcond]
    cases alGet st.users m.session with
    | none => rfl
    | some u0 =>
      dsimp only
      have c1 := connState_applyMoveField m st u0
      generalize hg1 : applyMoveField m st u0 = r1 at c1 ⊢
      obtain ⟨st1, u1, evs1, b1⟩ := r1
      dsimp only at c1 ⊢
      cases b1 with
      | true => rw [if_pos rfl]; exact c1
      | false =>
        rw [if_neg Bool.false_ne_true]
        have c2 := connState_applyMuteField m st1 u1 evs1
        generalize hg2 : applyMuteField m st1 u1 evs1 = r2 at c2 ⊢
        obtain ⟨st2, u2, evs2, b2⟩ := r2
        dsimp only at c2 ⊢
        cases b2 with
        | true => rw [if_pos rfl]; exact c2.trans c1
        | false =>
          rw [if_neg Bool.false_ne_true]
          have c3 := connState_applyDeafField m st2 u2 evs2
          generalize hg3 : applyDeafField m st2 u2 evs2 = r3 at c3 ⊢
          obtain ⟨st3, u3, evs3, b3⟩ := r3
          dsimp only at c3 ⊢
          cases b3 with
          | true => rw [if_pos rfl]; exact (c3.trans c2).trans c1
          | false =>
            rw [if_neg Bool.false_ne_true]
            have c4 := connState_applySuppressField m st3 u3 evs3
            generalize hg4 : applySuppressField m st3 u3 evs3 = r4 at c4 ⊢
            obtain ⟨st4, u4, evs4, b4⟩ := r4
            dsimp only at c4 ⊢
            have c5 := connState_applySelfMuteField m st4 u4 evs4
            generalize hg5 : applySelfMuteField m st4 u4 evs4 = r5 at c5 ⊢
            obtain ⟨st5, u5, evs5, b5⟩ := r5
            dsimp only at c5 ⊢
            have c6 := connState_applySelfDeafField m st5 u5 evs5
            generalize hg6 : applySelfDeafField m st5 u5 evs5 = r6 at c6 ⊢
            obtain ⟨st6, u6, evs6, b6⟩ := r6
            dsimp only at c6 ⊢
            have c7 := connState_applyPriorityField m st6 u6 evs6
            generalize hg7 : applyPriorityField m st6 u6 evs6 = r7 at c7 ⊢
            obtain ⟨st7, u7, evs7, b7⟩ := r7
            dsimp only at c7 ⊢
            cases b7 with
            | true =>
              rw [if_pos rfl]
              exact ((((c7.trans c6).trans c5).trans c4).trans
                ((c3.trans c2).trans c1))
            | false =>
              rw [if_neg Bool.false_ne_true]
              exact (connState_applyRecordingField m st7 u7 evs7).trans
                (((((c7.trans c6).trans c5).trans c4).trans
                  ((c3.trans c2).trans c1)))

theorem connState_linksAddLoop (cid : Nat) :
    ∀ (ls : List Nat) (st : PState) (evs : List Ev),
    connState (linksAddLoop cid ls st evs).1 = connState st := by
  intro ls
  induction ls with
  | nil => intro st evs; rfl
  | cons l rest ih =>
    intro st evs
    unfold linksAddLoop
    dsimp only
    cases alGet (updCh st cid (fun c => c.add_link l)).channels l with
    | none => exact connState_updCh st cid _
    | some _ => exact (ih _ _).trans (connState_updCh st cid _)

theorem connState_linksRemoveLoop (cid : Nat) :
    ∀ (ls : List Nat) (st : PState) (evs : List Ev),
    connState (linksRemoveLoop cid ls st evs).1 = connState st := by
  intro ls
  induction ls with
  | nil => intro st evs; rfl
  | cons l rest ih =>
    intro st evs
    unfold linksRemoveLoop
    dsimp only
    cases alGet (updCh st cid (fun c => c.remove_link l)).channels l with
    | none => exact connState_updCh st cid _
    | some _ => exact (ih _ _).trans (connState_updCh st cid _)

theorem connState_linkPhases (cid : Nat) (la lr : List Nat) (st : PState)
    (evs : List Ev) :
    connState (if (linksAddLoop cid la st evs).2.2 then linksAddLoop cid la st evs
         else linksRemoveLoop cid lr (linksAddLoop cid la st evs).1
           (linksAddLoop cid la st evs).2.1).1 = connState st := by
  by_cases hA : (linksAddLoop cid la st evs).2.2 = true
  · rw [if_pos hA]
    exact connState_linksAddLoop cid la st evs
  · rw [if_neg hA]
    exact (connState_linksRemoveLoop cid lr _ _).trans
      (connState_linksAddLoop cid la st evs)

theorem connState_handle_msg_channelstate (st : PState) (m : ChannelStateMsg) :
    connState (handle_msg_channelstate st m).1 = connState st := by
  unfold handle_msg_channelstate
  cases alGet st.channels m.channel_id with
  | some c =>
    dsimp only
    rw [if_neg Bool.false_ne_true]
    exact connState_linkPhases m.channel_id m.links_add m.links_remove st []
  | none =>
    dsimp only
    by_cases hl : m.links ≠ []
    · rw [if_pos hl, if_pos rfl]
    · rw [if_neg hl]
      dsimp only
      rw [if_neg Bool.false_ne_true]
      exact connState_linkPhases m.channel_id m.links_add m.links_remove _ []

theorem connState_handle_msg_userremove (st : PState) (m : UserRemoveMsg) :
    connState (handle_msg_userremove st m).1 = connState st := by
  unfold handle_msg_userremove
  cases alGet st.users m.session with
  | none => rfl
  | some u =>
    dsimp only
    exact connState_updCh _ u.channel _

/-- Once `pinging` is cleared and the connection lost, no action — incoming
state message or keepalive tick — changes the lifecycle fields: handlers never
touch them, and a tick observes the cleared flag and returns at once. -/
theorem connState_preserved (st : PState) (a : Action)
    (hp : st.pinging = false) (hl : st.lostConnection = true) :
    connState (applyAction st a) = connState st := by
  cases a with
  | tick =>
    unfold applyAction ping_handler
    rw [hp]
    simp
  | recv m =>
    cases m with
    | channelState cm => exact connState_handle_msg_channelstate st cm
    | userState um => exact connState_handle_msg_userstate st um
    | userRemove rm => exact connState_handle_msg_userremove st rm
    | reject =>
      show connState { st with lostConnection := true, pinging := false } =
        connState st
      unfold connState
      rw [hp, hl]

/-- C8. Once a Reject message has been processed, the pinging flag is
false and the transport lost, and they stay that way under any further
sequence of incoming messages and keepalive ticks; in particular no further
ping is ever sent and no further tick is ever scheduled (the sent/scheduled
counters never move again). -/
theorem reject_disables_keepalive (st : PState) (acts : List Action) :
    connState (applyActions (applyMsg st Msg.reject) acts) =
      (false, true, st.pingsSent, st.pingsScheduled) := by
  have hstep : ∀ (as : List Action) (s : PState), s.pinging = false →
      s.lostConnection = true →
      connState (applyActions s as) = connState s := by
    intro as
    induction as with
    | nil => intro s _ _; rfl
    | cons a rest ih =>
      intro s hp hl
      have h1 := connState_preserved s a hp hl
      have hp' : (applyAction s a).pinging = false := by
        have := congrArg Prod.fst h1
        simpa [connState, hp] using this
      have hl' : (applyAction s a).lostConnection = true := by
        have := congrArg (fun q => q.2.1) h1
        simpa [connState, hl] using this
      exact ((ih (applyAction s a) hp' hl').trans h1)
  have hafter : connState (applyMsg st Msg.reject) =
      (false, true, st.pingsSent, st.pingsScheduled) := rfl
  have := hstep acts (applyMsg st Msg.reject) rfl rfl
  rw [this, hafter]

/-! ## C7: the command interceptor (`Protocol.handle_command`, lines 568-613)

Python strings are modelled as `List Char`. -/

/-- Python `str.isspace` characters (the default-split separators). -/
def pyIsSpace (c : Char) : Bool :=
  c = ' ' || c = '\t' || c = '\n' || c = '\r' || c = '\x0b' || c = '\x0c'

/-- Python `str.replace(pat, rep)`: replace all non-overlapping occurrences,
left to right.  Fuel-structured recursion; every step consumes at least one
character, so `s.length` fuel always suffices. -/
def replaceAllFuel (pat rep : List Char) : Nat → List Char → List Char
  | 0, s => s
  | _ + 1, [] => []
  | fuel + 1, c :: rest =>
    if pat ≠ [] ∧ pat.isPrefixOf (c :: rest) then
      rep ++ replaceAllFuel pat rep fuel ((c :: rest).drop pat.length)
    else c :: replaceAllFuel pat rep fuel rest

def replaceAll (pat rep s : List Char) : List Char :=
  replaceAllFuel pat rep s.length s

/-- The `"{NICK}"` placeholder of the configured control characters. -/
def nickPlaceholder : List Char := ['\x7b', 'N', 'I', 'C', 'K', '\x7d']

/-- Embedding of `self.control_chars.replace("{NICK}", self.username).lower()` (line 573). -/
def commandPrefix (control_chars username : List Char) : List Char :=
  (replaceAll nickPlaceholder username control_chars).map Char.toLower

/-- Python `s.split(None, 1)`: skip leading whitespace; if nothing remains the
result is empty, otherwise the first whitespace-free run is the single token,
and whatever follows the next whitespace run (verbatim, trailing whitespace
kept) is the optional second element. -/
def pySplitOnce (s : List Char) : List (List Char) :=
  let s1 := s.dropWhile (fun c => pyIsSpace c)
  if s1 = [] then []
  else
    let tok := s1.takeWhile (fun c => !(pyIsSpace c))
    let rest := s1.dropWhile (fun c => !(pyIsSpace c))
    let rest2 := rest.dropWhile (fun c => pyIsSpace c)
    if rest2 = [] then [tok] else [tok, rest2]

/-- The outcome of `CommandManager.run_command` as read at lines 596-609:
`(a, b)` with `a` success; on failure `b` is `True` (unauthorized), `None`
(command not found) or anything else (an exception occurred). -/
inductive CmdResult
  | success
  | unauthorized
  | notFound
  | error
deriving DecidableEq, Repr

/-- The observable side effects of `handle_command`. -/
inductive CEv
  | preCommand (command args : List Char)
deriving DecidableEq, Repr

/-- Embedding of `Protocol.handle_command` (lines 568-613).  The first component is
`some b` for a normal return of `b`, and `none` when `split[0]` raises an
uncaught `IndexError` (line 580, remainder empty or all whitespace); the
second component lists the published notifications. -/
def handle_command (control_chars username message : List Char)
    (run : CmdResult) : Option Bool × List CEv :=
  let cc := commandPrefix control_chars username
  if cc.isPrefixOf (message.map Char.toLower) then
    let replaced := message.drop cc.length
    match pySplitOnce replaced with
    | [] => (none, [])  -- IndexError: split[0] of an empty list (line 580)
    | command :: restSplit =>
      let args := restSplit.headD []
      match run with
      | .notFound => (some false, [CEv.preCommand command args])
      | _ => (some true, [CEv.preCommand command args])
  else (some false, [])

/-- C7 counterexample.  With prefix `"!"`, identity `"bot"` and the
message `"!"` the prefix matches case-insensitively, yet the interceptor does
not return "not a command" on a not-found result — `split[0]` raises an
uncaught `IndexError` because the remainder after the prefix is empty, so
there is no command token at all. -/
theorem handle_command_empty_remainder_counterexample :
    (commandPrefix ['!'] ['b', 'o', 't']).isPrefixOf
      (['!'].map Char.toLower) = true ∧
    (handle_command ['!'] ['b', 'o', 't'] ['!'] CmdResult.notFound).1 ≠
      some false ∧
    (handle_command ['!'] ['b', 'o', 't'] ['!'] CmdResult.notFound).1 =
      none := by
  refine ⟨by decide, by decide, by decide⟩

/-- C7 amended.  The interceptor compares the configured prefix (with
`{NICK}` replaced by the identity's name, lower-cased) against the
lower-cased start of the message.  On a non-matching prefix it returns "not a
command" immediately with no side effects.  On a matched message whose
remainder contains a non-whitespace character, the remainder is split on the
first run of whitespace into a command token and a possibly-empty argument
string, one pre-command notification is published, and a not-found result
from the executor makes it return "not a command" while any other result
returns "handled".  On a matched message whose remainder is empty or all
whitespace the interceptor instead raises an uncaught IndexError. -/
theorem handle_command_spec (control_chars username message : List Char)
    (run : CmdResult) :
    ((commandPrefix control_chars username).isPrefixOf
        (message.map Char.toLower) = false →
      handle_command control_chars username message run = (some false, [])) ∧
    ((commandPrefix control_chars username).isPrefixOf
        (message.map Char.toLower) = true →
      (∀ tok rest,
        pySplitOnce (message.drop (commandPrefix control_chars username).length) =
          tok :: rest →
        (handle_command control_chars username message run).2 =
          [CEv.preCommand tok (rest.headD [])] ∧
        (run = CmdResult.notFound →
          (handle_command control_chars username message run).1 = some false) ∧
        (run ≠ CmdResult.notFound →
          (handle_command control_chars username message run).1 = some true)) ∧
      (pySplitOnce (message.drop (commandPrefix control_chars username).length) =
          [] →
        (handle_command control_chars username message run).1 = none)) := by
  constructor
  · intro hpre
    unfold handle_command
    rw [if_neg (by rw [hpre]; exact Bool.false_ne_true)]
  · intro hpre
    constructor
    · intro tok rest hsplit
      unfold handle_command
      rw [if_pos hpre]
      dsimp only
      rw [hsplit]
      refine ⟨?_, ?_, ?_⟩
      · cases run <;> rfl
      · intro hr
        subst hr
        rfl
      · intro hr
        cases run with
        | notFound => exact absurd rfl hr
        | success => rfl
        | unauthorized => rfl
        | error => rfl
    · intro hsplit
      unfold handle_command
      rw [if_pos hpre]
      dsimp only
      rw [hsplit]

/-- Witness for the amended C7: prefix `"!"`, identity `"bot"`, message
`"!Help  me  now"`; the command token is `"Help"` and the argument string is
`"me  now"`; a not-found result yields "not a command". -/
theorem handle_command_spec_witness :
    ((commandPrefix ['!'] ['b', 'o', 't']).isPrefixOf
        ((['!', 'H', 'e', 'l', 'p', ' ', ' ', 'm', 'e', ' ', ' ', 'n', 'o',
           'w']).map Char.toLower) = true ∧
      pySplitOnce ((['!', 'H', 'e', 'l', 'p', ' ', ' ', 'm', 'e', ' ', ' ',
          'n', 'o', 'w']).drop
        (commandPrefix ['!'] ['b', 'o', 't']).length) =
        [['H', 'e', 'l', 'p'], ['m', 'e', ' ', ' ', 'n', 'o', 'w']]) ∧
    (handle_command ['!'] ['b', 'o', 't']
        ['!', 'H', 'e', 'l', 'p', ' ', ' ', 'm', 'e', ' ', ' ', 'n', 'o', 'w']
        CmdResult.notFound).2 =
      [CEv.preCommand ['H', 'e', 'l', 'p'] ['m', 'e', ' ', ' ', 'n', 'o', 'w']] ∧
    (handle_command ['!'] ['b', 'o', 't']
        ['!', 'H', 'e', 'l', 'p', ' ', ' ', 'm', 'e', ' ', ' ', 'n', 'o', 'w']
        CmdResult.notFound).1 = some false := by
  refine ⟨⟨by decide, by decide⟩, ?_, ?_⟩
  · have := ((handle_command_spec ['!'] ['b', 'o', 't']
      ['!', 'H', 'e', 'l', 'p', ' ', ' ', 'm', 'e', ' ', ' ', 'n', 'o', 'w']
      CmdResult.notFound).2 (by decide)).1
      ['H', 'e', 'l', 'p'] [['m', 'e', ' ', ' ', 'n', 'o', 'w']] (by decide)
    exact this.1
  · have := ((handle_command_spec ['!'] ['b', 'o', 't']
      ['!', 'H', 'e', 'l', 'p', ' ', ' ', 'm', 'e', ' ', ' ', 'n', 'o', 'w']
      CmdResult.notFound).2 (by decide)).1
      ['H', 'e', 'l', 'p'] [['m', 'e', ' ', ' ', 'n', 'o', 'w']] (by decide)
    exact this.2.1 rfl

/-! ## C9: outbound text payloads (`Protocol.msg`, `msg_channel`,
`send_action`, lines 675-763) -/

/-- One character of `cgi.escape` (Python stdlib, `quote=False`): `&`, `<`
and `>` are replaced, in that order, with their entity references; the passes
use single-character patterns and the later passes cannot touch earlier
replacements, so the net effect is this character-wise expansion. -/
def escChar (c : Char) : List Char :=
  if c = '&' then ['&', 'a', 'm', 'p', ';']
  else if c = '<' then ['&', 'l', 't', ';']
  else if c = '>' then ['&', 'g', 't', ';']
  else [c]

/-- Embedding of `cgi.escape(message)` as called at line 724. -/
def cgiEscape : List Char → List Char
  | [] => []
  | c :: rest => escChar c ++ cgiEscape rest

theorem cgiEscape_append (a b : List Char) :
    cgiEscape (a ++ b) = cgiEscape a ++ cgiEscape b := by
  induction a with
  | nil => rfl
  | cons c rest ih =>
    simp [cgiEscape, ih, List.append_assoc]

/-- Where an outbound `TextMessage` frame is addressed: `channel_id` or
`session` (lines 728-731). -/
inductive MsgDest
  | channelId (id : Nat)
  | sessionId (id : Nat)
deriving DecidableEq, Repr

/-- The `Mumble_pb2.TextMessage` written to the transport by `Protocol.msg`. -/
structure TextMessageOut where
  dest : MsgDest
  message : List Char
deriving DecidableEq, Repr

/-- Embedding of `Protocol.msg` (lines 718-733): default the target id to the self
identity's current channel when sending to `"channel"` with no explicit id,
escape the text, then build the frame.  `none` models a raised exception
(`self.ourselves` being `None`, or appending `None` to the protobuf id
list). -/
def Protocol.msg (st : PState) (message : List Char) (target : String)
    (target_id : Option Nat) : Option TextMessageOut :=
  let tid : Option Nat :=
    if target_id = none ∧ target = "channel" then
      match st.ourselves with
      | none => none
      | some s =>
        match alGet st.users s with
        | none => none
        | some u => some u.channel
    else target_id
  match tid with
  | none => none
  | some i =>
    some ⟨if target = "channel" then MsgDest.channelId i else MsgDest.sessionId i,
          cgiEscape message⟩

/-- Embedding of `Protocol.msg_channel` (lines 735-748): the `MessageSent` event and the
log line look the channel up (raising on an unknown id; the external event
bus is modelled as the identity on the text), then `msg` is called with the
channel target. -/
def msg_channel (st : PState) (message : List Char) (channel : Nat) :
    Option TextMessageOut :=
  match alGet st.channels channel with
  | none => none
  | some _ => Protocol.msg st message "channel" (some channel)

/-- Embedding of `Protocol.send_action` to a `Channel` target (lines 693-711): the text is
wrapped in `*…*` and then sent through `msg_channel`. -/
def send_action_channel (st : PState) (message : List Char) (channel : Nat) :
    Option TextMessageOut :=
  msg_channel st (('*' :: message) ++ ['*']) channel

/-- C9. Every outbound text payload is markup-escaped before the frame is
written; an action-style send wraps the text so the wire payload is the
escaped text surrounded by the emphasis marker; and a `"channel"` send with
no explicit target id resolves to the channel id of the self-identity's
current channel. -/
theorem outbound_text_escaped (st : PState) (message : List Char) :
    (∀ (target : String) (tid : Option Nat) (out : TextMessageOut),
      Protocol.msg st message target tid = some out →
      out.message = cgiEscape message) ∧
    (∀ (cid : Nat) (out : TextMessageOut),
      send_action_channel st message cid = some out →
      out.message = '*' :: cgiEscape message ++ ['*']) ∧
    (∀ (s : Nat) (u : User), st.ourselves = some s →
      alGet st.users s = some u →
      Protocol.msg st message "channel" none =
        some ⟨MsgDest.channelId u.channel, cgiEscape message⟩) := by
  have hmsg : ∀ (msgText : List Char) (target : String) (tid : Option Nat)
      (out : TextMessageOut), Protocol.msg st msgText target tid = some out →
      out.message = cgiEscape msgText := by
    intro msgText target tid out h
    unfold Protocol.msg at h
    dsimp only at h
    generalize hg : (if tid = none ∧ target = "channel" then
      match st.ourselves with
      | none => none
      | some s =>
        match alGet st.users s with
        | none => none
        | some u => some u.channel
      else tid) = tv at h
    cases tv with
    | none => cases h
    | some i =>
      dsimp only at h
      injection h with h
      rw [← h]
  refine ⟨hmsg message, ?_, ?_⟩
  · intro cid out h
    unfold send_action_channel msg_channel at h
    generalize hg : alGet st.channels cid = cv at h
    cases cv with
    | none => cases h
    | some c =>
      dsimp only at h
      have := hmsg (('*' :: message) ++ ['*']) "channel" (some cid) out h
      rw [this, cgiEscape_append]
      simp [cgiEscape, escChar]
  · intro s u hself hu
    unfold Protocol.msg
    dsimp only
    rw [if_pos (And.intro rfl rfl), hself]
    dsimp only
    rw [hu]
    dsimp only
    rw [if_pos rfl]

/-- Witness for C9 at a concrete state: one channel 4, one user (session 2,
ourselves) in it; sending `"a<b"` to `"channel"` with no id escapes to
`"a&lt;b"` and addresses channel 4; the action send produces
`"*a&lt;b*"`. -/
theorem outbound_text_escaped_witness :
    (Protocol.msg
      ⟨[(4, ⟨4, "C", none, 0, [], [2]⟩)], [(2, ⟨2, "bot", 4, false, false,
        false, false, false, false, false, true⟩)], "bot", some 2, true,
        false, 0, 0⟩
      ['a', '<', 'b'] "channel" (some 4) = some ⟨MsgDest.channelId 4,
        ['a', '&', 'l', 't', ';', 'b']⟩) ∧
    (send_action_channel
      ⟨[(4, ⟨4, "C", none, 0, [], [2]⟩)], [(2, ⟨2, "bot", 4, false, false,
        false, false, false, false, false, true⟩)], "bot", some 2, true,
        false, 0, 0⟩
      ['a', '<', 'b'] 4).map TextMessageOut.message =
      some ['*', 'a', '&', 'l', 't', ';', 'b', '*'] ∧
    ((⟨[(4, ⟨4, "C", none, 0, [], [2]⟩)], [(2, ⟨2, "bot", 4, false, false,
        false, false, false, false, false, true⟩)], "bot", some 2, true,
        false, 0, 0⟩ : PState).ourselves = some 2 ∧
      alGet (⟨[(4, ⟨4, "C", none, 0, [], [2]⟩)], [(2, ⟨2, "bot", 4, false,
        false, false, false, false, false, false, true⟩)], "bot", some 2,
        true, false, 0, 0⟩ : PState).users 2 = some ⟨2, "bot", 4, false,
        false, false, false, false, false, false, true⟩ ∧
      Protocol.msg
        ⟨[(4, ⟨4, "C", none, 0, [], [2]⟩)], [(2, ⟨2, "bot", 4, false, false,
          false, false, false, false, false, true⟩)], "bot", some 2, true,
          false, 0, 0⟩
        ['a', '<', 'b'] "channel" none = some ⟨MsgDest.channelId 4,
          ['a', '&', 'l', 't', ';', 'b']⟩) := by
  refine ⟨by decide, by decide, rfl, rfl, ?_⟩
  exact (outbound_text_escaped
    ⟨[(4, ⟨4, "C", none, 0, [], [2]⟩)], [(2, ⟨2, "bot", 4, false, false,
      false, false, false, false, false, true⟩)], "bot", some 2, true,
      false, 0, 0⟩
    ['a', '<', 'b']).2.2 2
    ⟨2, "bot", 4, false, false, false, false, false, false, false, true⟩
    rfl rfl

end Ultros
